import Mathlib

/-!
# Verification of the arbitrage-spy core against its specification

Shallow embedding of the core of the `arbitrage-spy` repository:
the pair record and price derivation (`src/price_calculator.rs`),
the exchange graph (`src/core/exchange_graph.rs`), the arbitrage chain
finder (`src/core/arbitrage_chain.rs`) and the reserve-string
normalization (`src/utils.rs`).

Modelling conventions, used consistently below:

* `BigDecimal` values are modelled as exact rationals (`ℚ`).  The
  `bigdecimal` crate stores an unbounded integer mantissa with a scale;
  all operations appearing in the embedded code paths (addition,
  subtraction, multiplication, comparison, exact division by powers of
  ten) are exact there, and quotients are modelled exactly as well.
* `f64` values are also modelled as exact rationals.  Every float
  literal in the source (0.003, 0.1, 1.0001, ...) denotes its decimal
  value here.  `f64::log10` is transcendental and is modelled as an
  oracle parameter `lg : ℚ → ℚ` threaded through the finder.
* `HashMap<String, Vec<_>>` is modelled as an association list
  `List (String × List _)`; `HashSet<String>` as a `List String` with
  membership-checked insertion.  Hash iteration order is irrelevant to
  every property proved here.
* Timestamps (`last_updated`) are dropped: no embedded code path reads
  them.
* Library string parsers (`BigDecimal::from_str`, `str::parse::<f64>`,
  `str::parse::<u32>`, `str::parse::<i32>`) are modelled for plain
  decimal literals (optional sign, digits, at most one decimal point);
  exponent forms, `inf` and `NaN` are outside the model.  Parsed values
  are exact (no binary rounding).
-/

/-- Numeric value of a list of ASCII digit characters, most significant
first, as accumulated by a left fold (the empty list denotes 0). -/
def digitsToNat (cs : List Char) : ℕ :=
  cs.foldl (fun a c => a * 10 + (c.toNat - 48)) 0

/-- Models `BigDecimal::from_str` and `str::parse::<f64>` on plain decimal
literals: optional sign, then digits with at most one decimal point and
at least one digit overall.  The value is returned exactly as a rational. -/
def parseDecimalList (cs : List Char) : Option ℚ :=
  let sgn : ℚ := if cs.head? = some '-' then -1 else 1
  let cs' := if cs.head? = some '-' ∨ cs.head? = some '+' then cs.tail else cs
  let intPart := cs'.takeWhile Char.isDigit
  let rest := cs'.dropWhile Char.isDigit
  match rest with
  | [] =>
    if intPart.isEmpty then none
    else some (sgn * (digitsToNat intPart : ℚ))
  | '.' :: frac =>
    if frac.all Char.isDigit ∧ (intPart ≠ [] ∨ frac ≠ []) then
      some (sgn * ((digitsToNat intPart : ℚ) +
        (digitsToNat frac : ℚ) / (10 : ℚ) ^ frac.length))
    else none
  | _ => none

/-- String front end of `parseDecimalList`. -/
def parseDecimal (s : String) : Option ℚ :=
  parseDecimalList s.toList

/-- Models `str::parse::<u32>`: digit string whose value fits in 32 bits. -/
def parseU32 (s : String) : Option ℕ :=
  let cs := s.toList
  if cs ≠ [] ∧ cs.all Char.isDigit ∧ digitsToNat cs < 2 ^ 32 then
    some (digitsToNat cs)
  else none

/-- Models `str::parse::<i32>`: optional sign, digit string, 32-bit range. -/
def parseI32 (s : String) : Option ℤ :=
  let neg := s.toList.head? = some '-'
  let cs := if s.toList.head? = some '-' ∨ s.toList.head? = some '+' then
    s.toList.tail else s.toList
  if cs ≠ [] ∧ cs.all Char.isDigit then
    if neg then
      if digitsToNat cs ≤ 2 ^ 31 then some (-(digitsToNat cs : ℤ)) else none
    else
      if digitsToNat cs < 2 ^ 31 then some (digitsToNat cs : ℤ) else none
  else none

/-- Models `str::to_lowercase` for the ASCII dex names the code matches on. -/
def toLowerStr (s : String) : String :=
  s.map Char.toLower

/-- Contiguous-sublist test on character lists (needle first). -/
def listIsInfix (sub : List Char) : List Char → Bool
  | [] => sub.isEmpty
  | c :: rest => sub.isPrefixOf (c :: rest) || listIsInfix sub rest

/-- Models `str::contains(substring)`. -/
def strContainsSub (s sub : String) : Bool :=
  listIsInfix sub.toList s.toList

/-- Token metadata carried inside a pair record (`TokenInfo`). -/
structure TokenInfo where
  id : String
  symbol : String
  name : String
  decimals : String
deriving DecidableEq

/-- The canonical pair record (`PairData`) as consumed by the exchange
graph and the price calculator: its field set is the one constructed and
read throughout `core/exchange_graph.rs` and `price_calculator.rs`. -/
structure PairData where
  id : String
  network : String
  dex : String
  protocol_type : String
  token0 : TokenInfo
  token1 : TokenInfo
  volume_usd : String
  reserve_usd : String
  tx_count : String
  reserve0 : String
  reserve1 : String
  fee_tier : String
  sqrt_price : Option String
  tick : Option String
deriving DecidableEq

/-- The `protocol_types::AMM_V3` constant from `config.rs`. -/
def AMM_V3 : String := "amm_v3"

/-- The `protocol_types::AMM_V2` constant from `config.rs`. -/
def AMM_V2 : String := "amm_v2"

/-- The Q64.96 constant `PriceCalculator::Q96`. -/
def Q96 : ℚ := 79228162514264337593543950336

/-- Computing `10^k` by the repeated-multiplication loop the source uses
for `k > 18` (`adjust_for_decimals` and the V3 adjustment code). -/
def tenPowLoop (k : ℕ) : ℚ :=
  (List.range k).foldl (fun a _ => a * 10) 1

/-- The source's guarded power of ten: a direct power for `k ≤ 18`
(`10_u64.pow`), the multiplication loop otherwise. -/
def tenPowSafe (k : ℕ) : ℚ :=
  if k ≤ 18 then (10 : ℚ) ^ k else tenPowLoop k

/-- `PriceCalculator::adjust_for_decimals`: divide by `10^decimals`. -/
def adjust_for_decimals (v : ℚ) (decimals : ℕ) : ℚ :=
  v / tenPowSafe decimals

/-- `PriceCalculator::calculate_price_with_decimals`: parse both reserves,
reject a zero `reserve0`, and return the decimals-adjusted ratio
`(r1 / 10^d1) / (r0 / 10^d0)`. -/
def calculate_price_with_decimals (reserve0 reserve1 : String)
    (d0 d1 : ℕ) : Except String ℚ :=
  match parseDecimal reserve0 with
  | none => .error "Invalid reserve0"
  | some r0 =>
    match parseDecimal reserve1 with
    | none => .error "Invalid reserve1"
    | some r1 =>
      if r0 = 0 then .error "Reserve0 is zero, cannot calculate price"
      else .ok (adjust_for_decimals r1 d1 / adjust_for_decimals r0 d0)

/-- `PriceCalculator::has_valid_reserves`: both reserve strings parse and
are non-zero. -/
def has_valid_reserves (p : PairData) : Bool :=
  match parseDecimal p.reserve0, parseDecimal p.reserve1 with
  | some r0, some r1 => decide (r0 ≠ 0) && decide (r1 ≠ 0)
  | _, _ => false

/-- The decimal adjustment shared by the two V3 price paths: multiply by
`10^(d0 - d1)` when that difference is positive, divide by `10^|d0 - d1|`
when it is negative, leave unchanged when zero. -/
def v3DecimalAdjust (praw : ℚ) (d0 d1 : ℕ) : ℚ :=
  let diff : ℤ := (d0 : ℤ) - (d1 : ℤ)
  if diff ≠ 0 then
    let adjustment := tenPowSafe diff.natAbs
    if diff > 0 then praw * adjustment else praw / adjustment
  else praw

/-- `PriceCalculator::calculate_price_from_sqrt_price`: parse the Q64.96
square-root price, reject zero, square `s / 2^96`, then adjust decimals. -/
def calculate_price_from_sqrt_price (sqrt_price_x96 : String)
    (d0 d1 : ℕ) : Except String ℚ :=
  match parseDecimal sqrt_price_x96 with
  | none => .error "Invalid sqrt_price"
  | some sp =>
    if sp = 0 then .error "sqrt_price is zero, cannot calculate price"
    else
      let sqrt_price_real := sp / Q96
      .ok (v3DecimalAdjust (sqrt_price_real * sqrt_price_real) d0 d1)

/-- `PriceCalculator::calculate_price_from_tick`: parse the tick as `i32`
and return `1.0001^tick`, decimals-adjusted.  The source computes the
power with `f64::powi` and converts back through `BigDecimal::from_f64`;
the power is exact here per the float convention. -/
def calculate_price_from_tick (tick : String) (d0 d1 : ℕ) :
    Except String ℚ :=
  match parseI32 tick with
  | none => .error "Invalid tick value"
  | some tv => .ok (v3DecimalAdjust ((1.0001 : ℚ) ^ tv) d0 d1)

/-- The tick fallback tail of `calculate_v3_price`: a present, non-empty
tick string is used; otherwise the lookup fails. -/
def v3TickFallback (p : PairData) (d0 d1 : ℕ) : Except String ℚ :=
  match p.tick with
  | some t =>
    if ¬(t = "") then calculate_price_from_tick t d0 d1
    else .error "No valid V3 price data (sqrt_price or tick) found"
  | none => .error "No valid V3 price data (sqrt_price or tick) found"

/-- `PriceCalculator::calculate_v3_price`: parse both decimal exponents,
prefer a present, non-empty, not-literally-"0" `sqrt_price`, and fall
back to the tick otherwise. -/
def calculate_v3_price (p : PairData) : Except String ℚ :=
  match parseU32 p.token0.decimals with
  | none => .error "Invalid token0 decimals"
  | some d0 =>
    match parseU32 p.token1.decimals with
    | none => .error "Invalid token1 decimals"
    | some d1 =>
      match p.sqrt_price with
      | some s =>
        if ¬(s = "") ∧ ¬(s = "0") then
          calculate_price_from_sqrt_price s d0 d1
        else v3TickFallback p d0 d1
      | none => v3TickFallback p d0 d1

/-- `PriceCalculator::calculate_price_from_pair`: V3 math when
`protocol_type` is `amm_v3`, otherwise the V2 reserve-ratio path guarded
by `has_valid_reserves`. -/
def calculate_price_from_pair (p : PairData) : Except String ℚ :=
  if p.protocol_type = AMM_V3 then calculate_v3_price p
  else
    if has_valid_reserves p then
      match parseU32 p.token0.decimals with
      | none => .error "Invalid token0 decimals"
      | some d0 =>
        match parseU32 p.token1.decimals with
        | none => .error "Invalid token1 decimals"
        | some d1 =>
          calculate_price_with_decimals p.reserve0 p.reserve1 d0 d1
    else .error "Invalid reserves for V2 price calculation"

/-- A directed swap quote (`ExchangeEdge`). -/
structure ExchangeEdge where
  pair_id : String
  from_token : String
  to_token : String
  dex : String
  exchange_rate : ℚ
  liquidity : ℚ
  gas_cost : ℚ
  slippage : ℚ
  fee_percentage : ℚ
deriving DecidableEq

/-- The exchange graph (`ExchangeGraph`): adjacency list keyed by source
token plus the known-token set.  The `last_updated` timestamp is dropped
(no embedded path reads it). -/
structure ExchangeGraph where
  adjacency_list : List (String × List ExchangeEdge)
  tokens : List String
deriving DecidableEq

/-- `ExchangeGraph::estimate_gas_cost`: gas by case-insensitive substring
match on the dex name, first hit wins. -/
def estimate_gas_cost (dex_name : String) : ℚ :=
  let n := toLowerStr dex_name
  if strContainsSub n "uniswap" && strContainsSub n "v2" then 0.003
  else if strContainsSub n "uniswap" && strContainsSub n "v3" then 0.005
  else if strContainsSub n "sushiswap" then 0.003
  else if strContainsSub n "curve" then 0.004
  else if strContainsSub n "balancer" then 0.006
  else if strContainsSub n "pancakeswap" then 0.002
  else 0.003

/-- `ExchangeGraph::estimate_slippage`: liquidity buckets. -/
def estimate_slippage (liquidity : ℚ) : ℚ :=
  if liquidity > 10000000 then 0.0005
  else if liquidity > 1000000 then 0.001
  else if liquidity > 100000 then 0.005
  else if liquidity > 10000 then 0.01
  else 0.03

/-- `ExchangeGraph::get_dex_fee_percentage`: fee by the same dex-name
matching as the gas table. -/
def get_dex_fee_percentage (dex_name : String) : ℚ :=
  let n := toLowerStr dex_name
  if strContainsSub n "uniswap" && strContainsSub n "v2" then 0.003
  else if strContainsSub n "uniswap" && strContainsSub n "v3" then 0.003
  else if strContainsSub n "sushiswap" then 0.003
  else if strContainsSub n "curve" then 0.0004
  else if strContainsSub n "balancer" then 0.001
  else if strContainsSub n "pancakeswap" then 0.0025
  else 0.003

/-- Membership-checked insertion into the known-token set, modelling
`HashSet::insert`. -/
def insertToken (t : String) (tokens : List String) : List String :=
  if t ∈ tokens then tokens else t :: tokens

/-- Appending an edge to the adjacency entry of its source token,
modelling `adjacency_list.entry(from).or_insert_with(Vec::new).push(edge)`:
the first entry with that key receives the edge, a missing key is added. -/
def adjPush (e : ExchangeEdge) :
    List (String × List ExchangeEdge) → List (String × List ExchangeEdge)
  | [] => [(e.from_token, [e])]
  | kv :: rest =>
    if kv.1 = e.from_token then (kv.1, kv.2 ++ [e]) :: rest
    else kv :: adjPush e rest

/-- `ExchangeGraph::add_edge`. -/
def add_edge (g : ExchangeGraph) (e : ExchangeEdge) : ExchangeGraph :=
  { adjacency_list := adjPush e g.adjacency_list,
    tokens := insertToken e.to_token (insertToken e.from_token g.tokens) }

/-- `ExchangeGraph::get_edges_from`: the first adjacency entry with the
given key. -/
def get_edges_from (g : ExchangeGraph) (token : String) :
    Option (List ExchangeEdge) :=
  (g.adjacency_list.find? (fun kv => kv.1 == token)).map (fun kv => kv.2)

/-- The `has_sqrt_price` test inside `validate_pair_data`: present,
non-empty, and not the literal string "0". -/
def hasSqrtPriceStr (p : PairData) : Bool :=
  match p.sqrt_price with
  | some s => !(s == "") && !(s == "0")
  | none => false

/-- The `has_tick` test inside `validate_pair_data`: present and
non-empty. -/
def hasTickStr (p : PairData) : Bool :=
  match p.tick with
  | some t => !(t == "")
  | none => false

/-- `ExchangeGraph::validate_pair_data`: the pre-insert validation chain
(non-empty id, dex and symbols, distinct symbols, parseable decimals and
`reserve_usd`, then the protocol-specific state checks). -/
def validate_pair_data (p : PairData) : Except String Unit :=
  if p.id = "" then .error "pair id must not be empty"
  else if p.token0.symbol = "" ∨ p.token1.symbol = "" then
    .error "token symbols must not be empty"
  else if p.token0.symbol = p.token1.symbol then
    .error "token symbols must differ"
  else if p.dex = "" then .error "dex name must not be empty"
  else if (parseU32 p.token0.decimals).isNone then
    .error "invalid token0 decimals format"
  else if (parseU32 p.token1.decimals).isNone then
    .error "invalid token1 decimals format"
  else if (parseDecimal p.reserve_usd).isNone then
    .error "invalid reserveUSD format"
  else if p.protocol_type = AMM_V3 then
    if ¬hasSqrtPriceStr p ∧ ¬hasTickStr p then
      .error "V3 protocol requires sqrt_price or tick data"
    else .ok ()
  else
    if (parseDecimal p.reserve0).isNone then
      .error "invalid reserve0 format"
    else if (parseDecimal p.reserve1).isNone then
      .error "invalid reserve1 format"
    else if (parseDecimal p.reserve0).getD 0 ≤ 0 ∨
        (parseDecimal p.reserve1).getD 0 ≤ 0 then
      .error "V2 reserves must be positive"
    else .ok ()

/-- In-place refresh of one matched edge, as performed inside
`update_existing_edge`: rate and liquidity are replaced, gas and fee are
recomputed from the stored edge's dex name, slippage from the new
liquidity. -/
def refreshEdge (e : ExchangeEdge) (new_rate new_liquidity : ℚ) :
    ExchangeEdge :=
  { e with
    exchange_rate := new_rate,
    liquidity := new_liquidity,
    gas_cost := estimate_gas_cost e.dex,
    slippage := estimate_slippage new_liquidity,
    fee_percentage := get_dex_fee_percentage e.dex }

/-- Replacing the first list element satisfying a test, mirroring the
`for edge in edges.iter_mut() { if .. { ..; return true } }` loop. -/
def updateFirstWhere (pr : ExchangeEdge → Bool)
    (f : ExchangeEdge → ExchangeEdge) :
    List ExchangeEdge → Option (List ExchangeEdge)
  | [] => none
  | e :: rest =>
    if pr e then some (f e :: rest)
    else (updateFirstWhere pr f rest).map (fun l => e :: l)

/-- `ExchangeGraph::update_existing_edge`: refresh the first edge matching
`(to_token, pair_id)` inside the first adjacency entry for `from_token`;
report whether a match was found. -/
def update_existing_edge (adj : List (String × List ExchangeEdge))
    (frm tto pid : String) (new_rate new_liquidity : ℚ) :
    Bool × List (String × List ExchangeEdge) :=
  match adj.findIdx? (fun kv => kv.1 == frm) with
  | none => (false, adj)
  | some ei =>
    match adj.get? ei with
    | none => (false, adj)
    | some kv =>
      match updateFirstWhere
          (fun e => e.to_token == tto && e.pair_id == pid)
          (fun e => refreshEdge e new_rate new_liquidity) kv.2 with
      | none => (false, adj)
      | some l2 => (true, adj.set ei (kv.1, l2))

/-- The forward edge (`token0 → token1`) built by `update_pair_data`. -/
def mkForwardEdge (p : PairData) (rate liquidity : ℚ) : ExchangeEdge :=
  { pair_id := p.id,
    from_token := p.token0.symbol,
    to_token := p.token1.symbol,
    dex := p.dex,
    exchange_rate := rate,
    liquidity := liquidity,
    gas_cost := estimate_gas_cost p.dex,
    slippage := estimate_slippage liquidity,
    fee_percentage := get_dex_fee_percentage p.dex }

/-- The reverse edge (`token1 → token0`) built by `update_pair_data`. -/
def mkReverseEdge (p : PairData) (rate liquidity : ℚ) : ExchangeEdge :=
  { pair_id := p.id,
    from_token := p.token1.symbol,
    to_token := p.token0.symbol,
    dex := p.dex,
    exchange_rate := rate,
    liquidity := liquidity,
    gas_cost := estimate_gas_cost p.dex,
    slippage := estimate_slippage liquidity,
    fee_percentage := get_dex_fee_percentage p.dex }

/-- `ExchangeGraph::update_pair_data` (the spec's `upsert_pair`), as a
state transformer returning the call's result together with the graph
after the call.  All fallible steps (validation, price derivation,
liquidity parsing) happen before the first mutation, exactly as in the
source. -/
def update_pair_data (g : ExchangeGraph) (p : PairData) :
    Except String Unit × ExchangeGraph :=
  match validate_pair_data p with
  | .error e => (.error e, g)
  | .ok () =>
    match calculate_price_from_pair p with
    | .error e => (.error e, g)
    | .ok price_1_per_0 =>
      if price_1_per_0 = 0 then
        (.error "price is zero, cannot update pair", g)
      else
        let price_0_per_1 := 1 / price_1_per_0
        match parseDecimal p.reserve_usd with
        | none => (.error "invalid reserveUSD", g)
        | some liquidity =>
          let fwd := update_existing_edge g.adjacency_list
            p.token0.symbol p.token1.symbol p.id price_1_per_0 liquidity
          let rev := update_existing_edge fwd.2
            p.token1.symbol p.token0.symbol p.id price_0_per_1 liquidity
          let g1 : ExchangeGraph :=
            { adjacency_list := rev.2, tokens := g.tokens }
          let g2 := if fwd.1 then g1
            else add_edge g1 (mkForwardEdge p price_1_per_0 liquidity)
          let g3 := if rev.1 then g2
            else add_edge g2 (mkReverseEdge p price_0_per_1 liquidity)
          (.ok (), g3)

/-- `ExchangeGraph::remove_pair_edges`: drop every edge bearing the pair
id, then drop every adjacency entry that became empty together with its
token in the known-token set. -/
def remove_pair_edges (g : ExchangeGraph) (pair_id : String) :
    ExchangeGraph :=
  let adj1 := g.adjacency_list.map
    (fun kv => (kv.1, kv.2.filter (fun e => ¬(e.pair_id = pair_id))))
  let emptyKeys := (adj1.filter (fun kv => kv.2 = [])).map (fun kv => kv.1)
  { adjacency_list := adj1.filter (fun kv => ¬(kv.1 ∈ emptyKeys)),
    tokens := g.tokens.filter (fun t => ¬(t ∈ emptyKeys)) }

/-- `ExchangeGraph::remove_pair`. -/
def remove_pair (g : ExchangeGraph) (pair_id : String) : ExchangeGraph :=
  remove_pair_edges g pair_id

/-- The adjacency-list well-formedness invariant maintained by every graph
constructor: each edge is stored under its own source token. -/
def GraphWF (g : ExchangeGraph) : Prop :=
  ∀ kv ∈ g.adjacency_list, ∀ e ∈ kv.2, e.from_token = kv.1

/-- One hop of an arbitrage path (`ArbitrageHop`). -/
structure ArbitrageHop where
  edge : ExchangeEdge
  amount_in : ℚ
  amount_out : ℚ
  cumulative_gas : ℚ
  cumulative_fees : ℚ
deriving DecidableEq

/-- A complete arbitrage chain (`ArbitrageChain`). -/
structure ArbitrageChain where
  start_token : String
  hops : List ArbitrageHop
  initial_amount : ℚ
  final_amount : ℚ
  total_profit : ℚ
  total_gas_cost : ℚ
  total_fees : ℚ
  net_profit : ℚ
  profit_percentage : ℚ
  risk_score : ℚ
  execution_time_estimate : ℕ
deriving DecidableEq

/-- The finder configuration (`ArbitrageChainFinder` fields). -/
structure ArbitrageChainFinder where
  max_hops : ℕ
  min_profit_percentage : ℚ
  max_slippage : ℚ
  min_liquidity : ℚ
  max_risk_score : ℚ
  max_chains_per_token : ℕ
  min_amount_threshold : ℚ
  enable_early_pruning : Bool
deriving DecidableEq

/-- `ArbitrageChainFinder::is_edge_acceptable`: slippage and liquidity
bounds, and no revisiting of already-visited tokens except the start. -/
def is_edge_acceptable (F : ArbitrageChainFinder) (e : ExchangeEdge)
    (visited : List String) (start_token : String) : Bool :=
  if e.slippage > F.max_slippage then false
  else if e.liquidity < F.min_liquidity then false
  else if e.to_token ∈ visited ∧ e.to_token ≠ start_token then false
  else true

/-- `ArbitrageChainFinder::calculate_amount_after_swap`:
`amount · (1 − fee) · rate · (1 − slippage)`. -/
def calculate_amount_after_swap (amount_in : ℚ) (e : ExchangeEdge) : ℚ :=
  let amount_after_fee := amount_in * (1 - e.fee_percentage)
  let amount_before_slippage := amount_after_fee * e.exchange_rate
  amount_before_slippage * (1 - e.slippage)

/-- `ArbitrageChainFinder::calculate_cumulative_gas`: the fold of the
already-recorded cumulative gas values plus the new edge's gas. -/
def calculate_cumulative_gas (current_path : List ArbitrageHop)
    (additional_gas : ℚ) : ℚ :=
  (current_path.map (fun h => h.cumulative_gas)).foldl (· + ·) 0
    + additional_gas

/-- `ArbitrageChainFinder::calculate_cumulative_fees`: the fold of the
already-recorded cumulative fee values plus `amount_in · fee`. -/
def calculate_cumulative_fees (current_path : List ArbitrageHop)
    (amount_in : ℚ) (e : ExchangeEdge) : ℚ :=
  (current_path.map (fun h => h.cumulative_fees)).foldl (· + ·) 0
    + amount_in * e.fee_percentage

/-- `ArbitrageChainFinder::calculate_risk_score`: hop-count, liquidity,
slippage and dex-diversity components, capped at 1. -/
def calculate_risk_score (path : List ArbitrageHop) : ℚ :=
  let base := (path.length : ℚ) * 0.1
  let min_liquidity :=
    ((path.map (fun h => h.edge.liquidity)).min?).getD 0
  let liq := if min_liquidity < 10000 then (0.3 : ℚ)
    else if min_liquidity < 100000 then 0.1 else 0
  let max_slippage := path.foldl (fun a h => max a h.edge.slippage) 0
  let dex := if (path.map (fun h => h.edge.dex)).dedup.length = 1 ∧
      path.length > 2 then (0.2 : ℚ) else 0
  min (base + liq + max_slippage * 2 + dex) 1

/-- `ArbitrageChainFinder::estimate_execution_time` (seconds). -/
def estimate_execution_time (path : List ArbitrageHop) : ℕ :=
  let dex_delays := (path.map (fun h =>
    let n := toLowerStr h.edge.dex
    if strContainsSub n "uniswap" then 3
    else if strContainsSub n "curve" then 5
    else if strContainsSub n "balancer" then 7
    else 4)).foldl (· + ·) 0
  15 + path.length * 5 + dex_delays

/-- `ArbitrageChainFinder::build_arbitrage_chain`. -/
def build_arbitrage_chain (start_token : String)
    (path : List ArbitrageHop) (final_amount : ℚ) : ArbitrageChain :=
  let initial_amount : ℚ := 1
  let total_profit := final_amount - initial_amount
  let total_gas_cost :=
    ((path.getLast?).map (fun h => h.cumulative_gas)).getD 0
  let total_fees :=
    ((path.getLast?).map (fun h => h.cumulative_fees)).getD 0
  let net_profit := total_profit - total_gas_cost
  { start_token := start_token,
    hops := path,
    initial_amount := initial_amount,
    final_amount := final_amount,
    total_profit := total_profit,
    total_gas_cost := total_gas_cost,
    total_fees := total_fees,
    net_profit := net_profit,
    profit_percentage := net_profit / initial_amount * 100,
    risk_score := calculate_risk_score path,
    execution_time_estimate := estimate_execution_time path }

/-- `ArbitrageChainFinder::calculate_edge_priority_score`.  The oracle
`lg` stands for `f64::log10`; the source applies it to the liquidity and
clamps at 0, divides the rate-weighted result by one plus the cost
penalty, and down-weights edges violating the liquidity or slippage
bound by a factor 0.1. -/
def calculate_edge_priority_score (F : ArbitrageChainFinder)
    (lg : ℚ → ℚ) (e : ExchangeEdge) : ℚ :=
  let rate_score := e.exchange_rate
  let liquidity_score := max (lg e.liquidity) 0
  let cost_penalty := e.slippage + e.fee_percentage + e.gas_cost
  let score := rate_score * liquidity_score / (1 + cost_penalty)
  if e.liquidity < F.min_liquidity then score * 0.1
  else if e.slippage > F.max_slippage then score * 0.1
  else score

/-- The hop pushed by one `dfs_search` loop iteration. -/
def mkHop (current_path : List ArbitrageHop) (current_amount : ℚ)
    (e : ExchangeEdge) : ArbitrageHop :=
  { edge := e,
    amount_in := current_amount,
    amount_out := calculate_amount_after_swap current_amount e,
    cumulative_gas := calculate_cumulative_gas current_path e.gas_cost,
    cumulative_fees :=
      calculate_cumulative_fees current_path current_amount e }

/-- The mutable search state threaded through `dfs_search`: the visited
set, the current path and the accumulated chains. -/
structure SearchState where
  visited : List String
  path : List ArbitrageHop
  chains : List ArbitrageChain
deriving DecidableEq

/-- One recursion level of `ArbitrageChainFinder::dfs_search` as a state
transformer; `recurse` stands for the recursive call at the next depth. -/
def dfs_step (F : ArbitrageChainFinder) (lg : ℚ → ℚ)
    (g : ExchangeGraph) (start_token : String)
    (recurse : ℕ → String → ℚ → SearchState → SearchState)
    (depth : ℕ) (current_token : String) (current_amount : ℚ)
    (st : SearchState) : SearchState :=
    if F.enable_early_pruning = true ∧
        current_amount < F.min_amount_threshold then st
    else if F.enable_early_pruning = true ∧
        F.max_chains_per_token * 2 ≤ st.chains.length then st
    else if current_token = start_token ∧ 1 < depth then
      let chain := build_arbitrage_chain start_token st.path current_amount
      if F.min_profit_percentage ≤ chain.profit_percentage ∧
          chain.risk_score ≤ F.max_risk_score then
        { st with chains := st.chains ++ [chain] }
      else st
    else if F.max_hops ≤ depth then st
    else
      match get_edges_from g current_token with
      | none => st
      | some edges =>
        let sorted_edges := if F.enable_early_pruning then
            edges.insertionSort (fun a b =>
              calculate_edge_priority_score F lg b ≤
                calculate_edge_priority_score F lg a)
          else edges
        sorted_edges.foldl (fun st e =>
          if 0 < depth ∧ e.to_token = start_token ∧ depth < 2 then st
          else if ¬(is_edge_acceptable F e st.visited start_token = true)
            then st
          else
            let amount_out := calculate_amount_after_swap current_amount e
            let hop : ArbitrageHop := mkHop st.path current_amount e
            let st1 : SearchState :=
              { visited := insertToken current_token st.visited,
                path := st.path ++ [hop],
                chains := st.chains }
            let st2 := recurse (depth + 1)
              e.to_token amount_out st1
            { visited := if e.to_token ≠ start_token then
                st2.visited.erase current_token else st2.visited,
              path := st2.path.dropLast,
              chains := st2.chains }) st

/-- `ArbitrageChainFinder::dfs_search` as a state transformer.  `fuel` is
a structural-recursion bound; `find_arbitrage_chains` supplies
`max_hops + 1`, which is never exhausted because every recursive call
increases `depth` and recursion only happens while `depth < max_hops`. -/
def dfs_search (F : ArbitrageChainFinder) (lg : ℚ → ℚ)
    (g : ExchangeGraph) (start_token : String) :
    ℕ → ℕ → String → ℚ → SearchState → SearchState
  | 0, _, _, _, st => st
  | fuel + 1, depth, current_token, current_amount, st =>
    dfs_step F lg g start_token (dfs_search F lg g start_token fuel)
      depth current_token current_amount st

/-- `ArbitrageChainFinder::find_arbitrage_chains`: reject an unknown
start token, run the depth-first search from it with one unit of the
start token, then sort the found chains by descending net profit and
truncate to `max_chains_per_token`. -/
def find_arbitrage_chains (F : ArbitrageChainFinder) (lg : ℚ → ℚ)
    (g : ExchangeGraph) (start_token : String) :
    Except String (List ArbitrageChain) :=
  if ¬(start_token ∈ g.tokens) then
    .error "start token does not exist in the price graph"
  else
    let st := dfs_search F lg g start_token (F.max_hops + 1) 0
      start_token 1 { visited := [], path := [], chains := [] }
    let sorted := st.chains.insertionSort (fun a b =>
      b.net_profit ≤ a.net_profit)
    .ok (if F.max_chains_per_token < sorted.length then
      sorted.take F.max_chains_per_token else sorted)

/-- Models `str::trim`: whitespace stripped from both ends. -/
def rustTrim (cs : List Char) : List Char :=
  ((cs.dropWhile Char.isWhitespace).reverse.dropWhile
    Char.isWhitespace).reverse

/-- Models `str::split('.').collect::<Vec<_>>()`. -/
def splitDot : List Char → List (List Char)
  | [] => [[]]
  | c :: rest =>
    if c = '.' then [] :: splitDot rest
    else
      match splitDot rest with
      | [] => [[c]]
      | p :: ps => (c :: p) :: ps

/-- Models `str::trim_start_matches('0')`. -/
def trimStartZeros (cs : List Char) : List Char :=
  cs.dropWhile (fun c => c = '0')

/-- Models `str::trim_end_matches('0')`. -/
def trimEndZeros (cs : List Char) : List Char :=
  (cs.reverse.dropWhile (fun c => c = '0')).reverse

/-- The part of `convert_decimal_to_integer_string` after the empty-input
and parsed-zero shortcuts, operating on the integer and fractional parts
of the split input. -/
def convertCoreParts (integer_part decimal_part : List Char) :
    List Char :=
  let ic := trimStartZeros integer_part
  let integer_clean := if ic = [] ∨ ic = ['-'] then ['0'] else ic
  let decimal_clean := trimEndZeros decimal_part
  let r1 := if integer_clean = ['0'] ∧ ¬(decimal_clean = []) then []
    else integer_clean
  let decimal_no_leading_zeros := trimStartZeros decimal_clean
  let r2 := r1 ++ (if ¬(decimal_clean = []) ∧
    ¬(decimal_no_leading_zeros = []) then decimal_no_leading_zeros else [])
  if r2 = [] then ['0'] else r2

/-- `utils::convert_decimal_to_integer_string`: the catalogue's
reserve-string normalization.  The Rust return type is `Result<String>`
but every path returns `Ok`, so the embedding is total. -/
def convert_decimal_to_integer_string (s : String) : String :=
  if s = "" then "0"
  else
    let trimmed := rustTrim s.toList
    let shortcut : Bool := match parseDecimalList trimmed with
      | some v => decide (v = 0)
      | none => false
    if shortcut then "0"
    else
      let parts := splitDot trimmed
      String.mk (convertCoreParts (parts.headD [])
        ((parts.get? 1).getD []))

/-- CLAIM-SIDE definition (from the spec's words, for comparison with the
source function): the input's digits with the decimal point removed,
the fractional part's trailing zeros collapsed, leading zeros stripped,
digit order preserved, and the empty result collapsing to "0". -/
def specNormalize (s : String) : String :=
  if s = "" then "0"
  else
    let parts := splitDot s.toList
    let ds := trimStartZeros ((parts.headD []) ++
      trimEndZeros ((parts.get? 1).getD []))
    if ds = [] then "0" else String.mk ds

/-- The corrected normalization shape actually implemented: the integer
part stripped of leading zeros, concatenated with the fractional part
stripped of trailing and then leading zeros, empty results collapsing
to "0". -/
def amendedNormalizeParts (integer_part decimal_part : List Char) :
    List Char :=
  let ipc := trimStartZeros integer_part
  let fpc := trimStartZeros (trimEndZeros decimal_part)
  let r := ipc ++ fpc
  if r = [] then ['0'] else r

/-- String-level front end of `amendedNormalizeParts`. -/
def amendedNormalize (s : String) : String :=
  if s = "" then "0"
  else
    let parts := splitDot s.toList
    String.mk (amendedNormalizeParts (parts.headD [])
      ((parts.get? 1).getD []))

/-- Well-formed decimal string: at most one decimal point, digits
everywhere else. -/
def isWfDecimalStr (s : String) : Bool :=
  match splitDot s.toList with
  | [a] => a.all Char.isDigit
  | [a, b] => a.all Char.isDigit && b.all Char.isDigit
  | _ => false

/-- CLAIM-SIDE definition (from the spec's words): the edge priority
score `rate · max(0, log10(liquidity)) − 0.15·fee − 0.10·slippage −
0.05·gas`, with the same `log10` oracle as the source embedding. -/
def spec_priority_score (lg : ℚ → ℚ) (e : ExchangeEdge) : ℚ :=
  e.exchange_rate * max (lg e.liquidity) 0 - 0.15 * e.fee_percentage
    - 0.10 * e.slippage - 0.05 * e.gas_cost

/-- Consecutive-hop compatibility: each hop starts at the token and with
the amount the previous hop produced. -/
def LinkOk (a b : ArbitrageHop) : Prop :=
  b.edge.from_token = a.edge.to_token ∧ b.amount_in = a.amount_out

/-- The invariant connecting the DFS path to its search position: length
equals depth, hops link up, the path starts at the start token with one
unit, ends at the current token with the current amount, the hop pushed
at depth 1 never aims back at the start, and the cumulative columns
satisfy the recurrence the code computes. -/
structure PathOk (start current : String) (depth : ℕ) (amount : ℚ)
    (p : List ArbitrageHop) : Prop where
  len_eq : p.length = depth
  links : List.Chain' LinkOk p
  head_from : ∀ h0, p.head? = some h0 →
    h0.edge.from_token = start ∧ h0.amount_in = 1
  last_to : ∀ hl, p.getLast? = some hl →
    hl.edge.to_token = current ∧ hl.amount_out = amount
  nil_case : p = [] → current = start ∧ amount = 1
  second_hop : ∀ (h : 1 < p.length), (p.get ⟨1, h⟩).edge.to_token ≠ start
  cum_gas : ∀ i (h : i < p.length),
    (p.get ⟨i, h⟩).cumulative_gas = (p.get ⟨i, h⟩).edge.gas_cost +
      ((p.take i).map (fun x => x.cumulative_gas)).sum
  cum_fees : ∀ i (h : i < p.length),
    (p.get ⟨i, h⟩).cumulative_fees =
      (p.get ⟨i, h⟩).amount_in * (p.get ⟨i, h⟩).edge.fee_percentage +
      ((p.take i).map (fun x => x.cumulative_fees)).sum

/-- Everything the search guarantees about a chain it accumulates. -/
structure ChainInv (F : ArbitrageChainFinder) (start : String)
    (c : ArbitrageChain) : Prop where
  nonempty : c.hops ≠ []
  head_from : ∀ h0, c.hops.head? = some h0 → h0.edge.from_token = start
  head_amount : ∀ h0, c.hops.head? = some h0 → h0.amount_in = 1
  last_to : ∀ hl, c.hops.getLast? = some hl → hl.edge.to_token = start
  links : List.Chain' LinkOk c.hops
  profit_ok : F.min_profit_percentage ≤ c.profit_percentage
  risk_ok : c.risk_score ≤ F.max_risk_score
  hops_le : c.hops.length ≤ F.max_hops
  hops_ge : 3 ≤ c.hops.length
  cum_gas : ∀ i (h : i < c.hops.length),
    (c.hops.get ⟨i, h⟩).cumulative_gas =
      (c.hops.get ⟨i, h⟩).edge.gas_cost +
      ((c.hops.take i).map (fun x => x.cumulative_gas)).sum
  cum_fees : ∀ i (h : i < c.hops.length),
    (c.hops.get ⟨i, h⟩).cumulative_fees =
      (c.hops.get ⟨i, h⟩).amount_in *
        (c.hops.get ⟨i, h⟩).edge.fee_percentage +
      ((c.hops.take i).map (fun x => x.cumulative_fees)).sum
  total_gas : c.total_gas_cost =
    ((c.hops.getLast?).map (fun x => x.cumulative_gas)).getD 0
  total_fees : c.total_fees =
    ((c.hops.getLast?).map (fun x => x.cumulative_fees)).getD 0

/-- Triangle edge A→B of the spec's scenario 8.3. -/
def eAB : ExchangeEdge :=
  ⟨"p1", "A", "B", "dex1", 101/100, 100000, 3/1000, 1/1000, 3/1000⟩

/-- Triangle edge B→C of the spec's scenario 8.3. -/
def eBC : ExchangeEdge :=
  ⟨"p2", "B", "C", "dex2", 101/100, 100000, 3/1000, 1/1000, 3/1000⟩

/-- Triangle edge C→A of the spec's scenario 8.3. -/
def eCA : ExchangeEdge :=
  ⟨"p3", "C", "A", "dex3", 101/100, 100000, 3/1000, 1/1000, 3/1000⟩

/-- The three-token cycle graph of the spec's scenario 8.3. -/
def G8 : ExchangeGraph :=
  ⟨[("A", [eAB]), ("B", [eBC]), ("C", [eCA])], ["A", "B", "C"]⟩

/-- The scenario 8.3 finder configuration (pruning off so that the search
order is the adjacency order). -/
def F8 : ArbitrageChainFinder :=
  ⟨3, 0, 1/100, 1000, 1, 10, 1/1000, false⟩

/-- The same configuration with `max_hops = 2`. -/
def F8two : ArbitrageChainFinder :=
  ⟨2, 0, 1/100, 1000, 1, 10, 1/1000, false⟩

/-- A concrete `log10` oracle for witnesses (its value is irrelevant to
every property instantiated with it). -/
def lg0 : ℚ → ℚ := fun _ => 0

/-- The chain list the finder returns on the scenario 8.3 graph. -/
def chainsW : List ArbitrageChain :=
  match find_arbitrage_chains F8 lg0 G8 "A" with
  | .ok l => l
  | .error _ => []

/-- The fallback chain used only to give `chainsW.headD` a value. -/
def emptyChain : ArbitrageChain :=
  build_arbitrage_chain "A" [] 1

/-- The single chain the finder returns on the scenario 8.3 graph. -/
def cW : ArbitrageChain := chainsW.headD emptyChain

/-- The chain list the finder returns on the scenario 8.3 graph when
`max_hops = 2`. -/
def chainsW2 : List ArbitrageChain :=
  match find_arbitrage_chains F8two lg0 G8 "A" with
  | .ok l => l
  | .error _ => [emptyChain]

/-- A V2 pair record with a negative `reserve0`, violating the claimed
precondition `r0 > 0` while still passing the code's non-zero test. -/
def pC3 : PairData :=
  ⟨"pid3", "ethereum", "uniswap_v2", "amm_v2",
    ⟨"0x1", "T0", "Token0", "0"⟩, ⟨"0x2", "T1", "Token1", "0"⟩,
    "1", "5000000", "1", "-1", "1", "3000", none, none⟩

/-- The spec's scenario 8.1 pair: decimals (18, 6), `reserve0 = 10^21`,
`reserve1 = 2·10^9`. -/
def p81 : PairData :=
  ⟨"pid81", "ethereum", "uniswap_v2", "amm_v2",
    ⟨"0x1", "WETH", "Wrapped Ether", "18"⟩,
    ⟨"0x2", "USDT", "Tether USD", "6"⟩,
    "1", "5000000", "1", "1000000000000000000000", "2000000000",
    "3000", none, none⟩

/-- A V3 pair whose `sqrt_price` string is "0.0": it parses to zero but
is not the literal "0", so the code errors instead of falling back to the
present tick. -/
def pC4 : PairData :=
  ⟨"pid4", "ethereum", "uniswap_v3", "amm_v3",
    ⟨"0x1", "T0", "Token0", "6"⟩, ⟨"0x2", "T1", "Token1", "6"⟩,
    "1", "5000000", "1", "0", "0", "3000", some "0.0", some "0"⟩

/-- A V3 pair carrying the Q96 square-root price with equal decimals. -/
def pW4 : PairData :=
  ⟨"pid5", "ethereum", "uniswap_v3", "amm_v3",
    ⟨"0x1", "WETH", "Wrapped Ether", "18"⟩,
    ⟨"0x2", "T1", "Token1", "18"⟩,
    "1", "5000000", "1", "0", "0", "3000",
    some "79228162514264337593543950336", none⟩

/-- A V3 pair with neither `sqrt_price` nor `tick` (scenario 8.5). -/
def pC5 : PairData :=
  ⟨"pid6", "ethereum", "uniswap_v3", "amm_v3",
    ⟨"0x1", "WETH", "Wrapped Ether", "18"⟩,
    ⟨"0x2", "USDC", "USD Coin", "6"⟩,
    "1", "5000000", "1", "0", "0", "3000", none, none⟩

/-- A V2 pair between WETH and USDC used by the update witnesses. -/
def p6 : PairData :=
  ⟨"pair6", "ethereum", "uniswap_v2", "amm_v2",
    ⟨"0x1", "WETH", "Wrapped Ether", "0"⟩,
    ⟨"0x2", "USDC", "USD Coin", "0"⟩,
    "1", "6000000", "1", "1000", "3000", "3000", none, none⟩

/-- A graph already holding the two directed edges of `p6` (with one
extra unrelated edge in front of the forward one). -/
def g6 : ExchangeGraph :=
  ⟨[("WETH", [⟨"other", "WETH", "DAI", "sushiswap", 2, 50000, 3/1000,
      1/100, 3/1000⟩,
    ⟨"pair6", "WETH", "USDC", "uniswap_v2", 2, 5000000, 3/1000,
      1/1000, 3/1000⟩]),
    ("USDC", [⟨"pair6", "USDC", "WETH", "uniswap_v2", 1/2, 5000000,
      3/1000, 1/1000, 3/1000⟩]),
    ("DAI", [⟨"other", "DAI", "WETH", "sushiswap", 1/2, 50000, 3/1000,
      1/100, 3/1000⟩])],
   ["WETH", "USDC", "DAI"]⟩

/-- A graph used by the removal witness: pair `p1` connects A and B,
pair `p2` connects A and C. -/
def g7 : ExchangeGraph :=
  ⟨[("A", [⟨"p1", "A", "B", "dex1", 2, 100, 3/1000, 1/100, 3/1000⟩,
    ⟨"p2", "A", "C", "dex2", 3, 100, 3/1000, 1/100, 3/1000⟩]),
    ("B", [⟨"p1", "B", "A", "dex1", 1/2, 100, 3/1000, 1/100, 3/1000⟩]),
    ("C", [⟨"p2", "C", "A", "dex2", 1/3, 100, 3/1000, 1/100, 3/1000⟩])],
   ["A", "B", "C"]⟩

/-- The edge used by the priority-score counterexample: unit liquidity,
so that the true `log10` value is 0. -/
def eC8 : ExchangeEdge :=
  ⟨"px", "U", "V", "sushiswap", 1, 1, 3/1000, 1/1000, 3/1000⟩

/-- Error-discriminator for `Except` results (used to state that a call
fails without naming the message). -/
def exceptIsError {α : Type} (r : Except String α) : Bool :=
  match r with
  | .error _ => true
  | .ok _ => false

theorem foldl_add_eq (l : List ℚ) (a : ℚ) : l.foldl (· + ·) a = a + l.sum := by
  induction l generalizing a with
  | nil => simp
  | cons x xs ih => simp only [List.foldl_cons, List.sum_cons, ih]; ring

theorem calculate_cumulative_gas_eq (p : List ArbitrageHop) (gq : ℚ) :
    calculate_cumulative_gas p gq =
      (p.map (fun x => x.cumulative_gas)).sum + gq := by
  simp [calculate_cumulative_gas, foldl_add_eq]

theorem calculate_cumulative_fees_eq (p : List ArbitrageHop) (amt : ℚ)
    (e : ExchangeEdge) :
    calculate_cumulative_fees p amt e =
      (p.map (fun x => x.cumulative_fees)).sum + amt * e.fee_percentage := by
  simp [calculate_cumulative_fees, foldl_add_eq]

theorem tenPowLoop_eq (k : ℕ) : tenPowLoop k = 10 ^ k := by
  induction k with
  | zero => simp [tenPowLoop]
  | succ n ih =>
    simp only [tenPowLoop, List.range_succ, List.foldl_append,
      List.foldl_cons, List.foldl_nil] at *
    rw [ih, pow_succ]

theorem tenPowSafe_eq (k : ℕ) : tenPowSafe k = 10 ^ k := by
  unfold tenPowSafe
  split <;> simp [tenPowLoop_eq]

theorem Q96_eq : Q96 = 2 ^ 96 := by norm_num [Q96]

/-- C8 counterexample: at an edge with unit liquidity (whose true
`log10` is 0) the score the code computes is 0 — the rate-weighted log
term divided by one plus the cost penalty — while the claimed
subtractive-weight formula gives `−0.15·fee − 0.10·slippage − 0.05·gas
= −7/10000`.  The finder's ordering score is therefore not the claimed
formula. -/
theorem C8_priority_score_counterexample :
    calculate_edge_priority_score F8 lg0 eC8 ≠ spec_priority_score lg0 eC8 ∧
    calculate_edge_priority_score F8 lg0 eC8 = 0 ∧
    spec_priority_score lg0 eC8 = -(7 / 10000) := by
  refine ⟨?_, by with_unfolding_all rfl, by with_unfolding_all rfl⟩
  rw [show calculate_edge_priority_score F8 lg0 eC8 = 0 by
    with_unfolding_all rfl]
  rw [show spec_priority_score lg0 eC8 = -(7 / 10000) by
    with_unfolding_all rfl]
  norm_num

/-- C8 (amended): the priority score the finder uses to order candidate
edges equals `rate · max(log10(liquidity), 0) / (1 + slippage + fee +
gas)`, multiplied by 0.1 when the edge fails the `min_liquidity` bound,
or else by 0.1 when it fails the `max_slippage` bound. -/
theorem C8_priority_score_amended (F : ArbitrageChainFinder)
    (lg : ℚ → ℚ) (e : ExchangeEdge) :
    calculate_edge_priority_score F lg e =
      (if e.liquidity < F.min_liquidity then (0.1 : ℚ)
        else if e.slippage > F.max_slippage then 0.1 else 1) *
      (e.exchange_rate * max (lg e.liquidity) 0 /
        (1 + (e.slippage + e.fee_percentage + e.gas_cost))) := by
  unfold calculate_edge_priority_score
  split_ifs <;> ring

/-- C3 counterexample: the record `pC3` has `reserve0 = "-1"`, so the
claimed precondition `r0 > 0` fails and the claim demands an
*InvalidReserves* failure; the code only tests the reserves for zero and
returns the price −1. -/
theorem C3_v2_price_counterexample :
    calculate_price_from_pair pC3 = .ok (-1) ∧
    parseDecimal pC3.reserve0 = some (-1) ∧
    ¬((-1 : ℚ) > 0) := by
  refine ⟨by with_unfolding_all rfl, by with_unfolding_all rfl, by norm_num⟩

/-- C3 (amended): for a non-V3 pair the price derivation returns exactly
`(r1 / 10^d1) / (r0 / 10^d0)` whenever both reserves parse to non-zero
values — of either sign — and fails whenever either reserve is zero or
unparseable; on the spec's 8.1 input the rate is exactly 2. -/
theorem C3_v2_price_amended :
    (∀ p r0 r1 d0 d1, ¬(p.protocol_type = AMM_V3) →
      parseDecimal p.reserve0 = some r0 →
      parseDecimal p.reserve1 = some r1 →
      ¬(r0 = 0) → ¬(r1 = 0) →
      parseU32 p.token0.decimals = some d0 →
      parseU32 p.token1.decimals = some d1 →
      calculate_price_from_pair p =
        .ok ((r1 / 10 ^ d1) / (r0 / 10 ^ d0))) ∧
    (∀ p, ¬(p.protocol_type = AMM_V3) →
      (parseDecimal p.reserve0 = none ∨ parseDecimal p.reserve0 = some 0 ∨
        parseDecimal p.reserve1 = none ∨
        parseDecimal p.reserve1 = some 0) →
      exceptIsError (calculate_price_from_pair p) = true) ∧
    calculate_price_from_pair p81 = .ok 2 := by
  refine ⟨?_, ?_, by with_unfolding_all rfl⟩
  · intro p r0 r1 d0 d1 hprot hr0 hr1 hr0ne hr1ne hd0 hd1
    have hval : has_valid_reserves p = true := by
      unfold has_valid_reserves
      rw [hr0, hr1]
      simp [hr0ne, hr1ne]
    unfold calculate_price_from_pair
    rw [if_neg hprot, if_pos hval, hd0, hd1]
    unfold calculate_price_with_decimals
    rw [hr0, hr1]
    simp [hr0ne, adjust_for_decimals, tenPowSafe_eq]
  · intro p hprot hbad
    have hiff : has_valid_reserves p = true ↔ ∃ a b,
        parseDecimal p.reserve0 = some a ∧ parseDecimal p.reserve1 = some b ∧
        ¬(a = 0) ∧ ¬(b = 0) := by
      unfold has_valid_reserves
      cases hA : parseDecimal p.reserve0 <;>
        cases hB : parseDecimal p.reserve1 <;> simp
    have hval : ¬(has_valid_reserves p = true) := by
      rw [hiff]
      rintro ⟨a, b, ha, hb, hane, hbne⟩
      rcases hbad with h | h | h | h <;> simp_all
    unfold calculate_price_from_pair
    rw [if_neg hprot, if_neg hval]
    rfl


/-- C3 witness: the amended success clause instantiated on the spec's
scenario 8.1 record, together with the discharged hypotheses. -/
theorem C3_v2_price_amended_witness :
    calculate_price_from_pair p81 =
      .ok ((2000000000 / 10 ^ 6) / (1000000000000000000000 / 10 ^ 18)) :=
  C3_v2_price_amended.1 p81 1000000000000000000000 2000000000 18 6
    (by simp [p81, AMM_V3]) (by with_unfolding_all rfl)
    (by with_unfolding_all rfl) (by norm_num) (by norm_num)
    (by with_unfolding_all rfl) (by with_unfolding_all rfl)

/-- C4 counterexample: `pC4` carries `sqrt_price = "0.0"` — present and
numerically zero but not the literal "0" — together with a usable tick
`"0"`; the claim demands the tick fallback `1.0001^0 = 1`, but the code
enters the sqrt-price path and fails with the zero-sqrt-price error. -/
theorem C4_v3_price_counterexample :
    calculate_v3_price pC4 =
      .error "sqrt_price is zero, cannot calculate price" ∧
    parseDecimal "0.0" = some 0 ∧ pC4.tick = some "0" ∧
    calculate_price_from_tick "0" 6 6 = .ok 1 := by
  exact ⟨by with_unfolding_all rfl, by with_unfolding_all rfl, rfl,
    by with_unfolding_all rfl⟩

/-- C4 (amended): with parseable decimal exponents, the V3 price
derivation (a) squares `s/2^96` and adjusts decimals whenever the
sqrt-price string is present, non-empty, not literally "0", and parses
to a non-zero value; (b) fails with the zero-sqrt-price error when such
a string parses to zero (no tick fallback); (c) falls back to
`1.0001^tick` with the same adjustment only when the sqrt-price string
is absent, empty or literally "0" and the tick is present and
non-empty; and (d) fails when neither is usable. -/
theorem C4_v3_price_amended (p : PairData) (d0 d1 : ℕ)
    (hd0 : parseU32 p.token0.decimals = some d0)
    (hd1 : parseU32 p.token1.decimals = some d1) :
    (∀ s q, p.sqrt_price = some s → ¬(s = "") → ¬(s = "0") →
      parseDecimal s = some q → ¬(q = 0) →
      calculate_v3_price p =
        .ok (v3DecimalAdjust ((q / 2 ^ 96) * (q / 2 ^ 96)) d0 d1)) ∧
    (∀ s q, p.sqrt_price = some s → ¬(s = "") → ¬(s = "0") →
      parseDecimal s = some q → q = 0 →
      calculate_v3_price p =
        .error "sqrt_price is zero, cannot calculate price") ∧
    ((p.sqrt_price = none ∨ p.sqrt_price = some "" ∨
        p.sqrt_price = some "0") →
      ∀ t n, p.tick = some t → ¬(t = "") → parseI32 t = some n →
      calculate_v3_price p =
        .ok (v3DecimalAdjust ((1.0001 : ℚ) ^ n) d0 d1)) ∧
    ((p.sqrt_price = none ∨ p.sqrt_price = some "" ∨
        p.sqrt_price = some "0") →
      (p.tick = none ∨ p.tick = some "") →
      exceptIsError (calculate_v3_price p) = true) := by
  refine ⟨?_, ?_, ?_, ?_⟩
  · intro s q hs hse hs0 hq hqne
    unfold calculate_v3_price
    simp only [hd0, hd1, hs, if_pos (And.intro hse hs0)]
    unfold calculate_price_from_sqrt_price
    simp only [hq, if_neg hqne, Q96_eq]
  · intro s q hs hse hs0 hq hqz
    unfold calculate_v3_price
    simp only [hd0, hd1, hs, if_pos (And.intro hse hs0)]
    unfold calculate_price_from_sqrt_price
    simp only [hq, if_pos hqz]
  · intro hsq t n ht hte hn
    unfold calculate_v3_price v3TickFallback
    rcases hsq with h | h | h
    · simp only [hd0, hd1, h, ht, if_pos hte]
      unfold calculate_price_from_tick
      simp only [hn]
    · simp only [hd0, hd1, h, ht, if_pos hte]
      unfold calculate_price_from_tick
      simp only [hn]
      simp
    · simp only [hd0, hd1, h, ht, if_pos hte]
      unfold calculate_price_from_tick
      simp only [hn]
      simp
  · intro hsq htk
    unfold calculate_v3_price v3TickFallback
    rcases hsq with h | h | h <;> rcases htk with h2 | h2 <;>
      simp only [hd0, hd1, h, h2, exceptIsError] <;> simp [exceptIsError]

/-- C4 witness: the amended sqrt-price clause instantiated on the Q96
pair of scenario 8.2, giving price exactly 1. -/
theorem C4_v3_price_amended_witness :
    calculate_v3_price pW4 = .ok 1 := by
  have h := (C4_v3_price_amended pW4 18 18 (by with_unfolding_all rfl)
    (by with_unfolding_all rfl)).1 "79228162514264337593543950336"
    79228162514264337593543950336 rfl (by simp) (by simp)
    (by with_unfolding_all rfl) (by norm_num)
  rw [h]
  norm_num [v3DecimalAdjust]

/-- A pair with `protocol_type = amm_v3` and neither sqrt-price nor tick
fails validation (either at the V3 state check or at an earlier check). -/
theorem validate_v3_missing_err (p : PairData)
    (hprot : p.protocol_type = AMM_V3) (hsq : p.sqrt_price = none)
    (htk : p.tick = none) :
    exceptIsError (validate_pair_data p) = true := by
  unfold validate_pair_data hasSqrtPriceStr hasTickStr
  simp only [hprot, hsq, htk]
  split_ifs <;> first | rfl | simp_all

/-- C5: on a V3 pair with both `sqrt_price` and `tick` absent,
`update_pair_data` returns a validation error and leaves the graph —
adjacency list, token set and every edge — exactly as it was. -/
theorem C5_v3_validation_rejects (g : ExchangeGraph) (p : PairData)
    (hprot : p.protocol_type = AMM_V3) (hsq : p.sqrt_price = none)
    (htk : p.tick = none) :
    exceptIsError (update_pair_data g p).1 = true ∧
    (update_pair_data g p).2 = g := by
  have hv := validate_v3_missing_err p hprot hsq htk
  unfold update_pair_data
  cases hval : validate_pair_data p with
  | error e => simp [hval, exceptIsError]
  | ok u => rw [hval] at hv; simp [exceptIsError] at hv

/-- C5 witness: scenario 8.5 on the triangle graph. -/
theorem C5_v3_validation_rejects_witness :
    exceptIsError (update_pair_data G8 pC5).1 = true ∧
    (update_pair_data G8 pC5).2 = G8 :=
  C5_v3_validation_rejects G8 pC5 rfl rfl rfl

/-- C7: after `remove_pair(id)` no edge of the graph bears that pair id,
no adjacency entry is empty, and every token whose adjacency list became
empty is gone from both the adjacency map and the known-token set. -/
theorem C7_remove_pair_clean (g : ExchangeGraph) (pid : String) :
    (∀ kv, kv ∈ (remove_pair g pid).adjacency_list →
      ¬(kv.2 = []) ∧ ∀ e, e ∈ kv.2 → ¬(e.pair_id = pid)) ∧
    (∀ kv, kv ∈ g.adjacency_list →
      kv.2.filter (fun e => ¬(e.pair_id = pid)) = [] →
      (∀ kv2, kv2 ∈ (remove_pair g pid).adjacency_list →
        ¬(kv2.1 = kv.1)) ∧
      ¬(kv.1 ∈ (remove_pair g pid).tokens)) := by
  unfold remove_pair remove_pair_edges
  constructor
  · intro kv hkv
    rw [List.mem_filter] at hkv
    obtain ⟨hmem, hpred⟩ := hkv
    rw [List.mem_map] at hmem
    obtain ⟨kv0, hkv0, hfkv⟩ := hmem
    constructor
    · intro hemp
      simp only [decide_eq_true_eq] at hpred
      apply hpred
      rw [List.mem_map]
      refine ⟨kv, ?_, rfl⟩
      rw [List.mem_filter]
      refine ⟨?_, by simp [hemp]⟩
      rw [List.mem_map]
      exact ⟨kv0, hkv0, hfkv⟩
    · intro e hekv
      subst hfkv
      simp only at hekv
      rw [List.mem_filter] at hekv
      simpa using hekv.2
  · intro kv hkv hfilt
    have hmem1 : (kv.1, kv.2.filter (fun e => ¬(e.pair_id = pid))) ∈
        g.adjacency_list.map (fun kv =>
          (kv.1, kv.2.filter (fun e => ¬(e.pair_id = pid)))) := by
      rw [List.mem_map]
      exact ⟨kv, hkv, rfl⟩
    have hkey : kv.1 ∈ ((g.adjacency_list.map (fun kv =>
        (kv.1, kv.2.filter (fun e => ¬(e.pair_id = pid))))).filter
          (fun kv => kv.2 = [])).map (fun kv => kv.1) := by
      rw [List.mem_map]
      refine ⟨(kv.1, kv.2.filter (fun e => ¬(e.pair_id = pid))), ?_, rfl⟩
      rw [List.mem_filter]
      refine ⟨hmem1, ?_⟩
      simp only [decide_eq_true_eq]
      exact hfilt
    constructor
    · intro kv2 hkv2 heq
      rw [List.mem_filter] at hkv2
      have := hkv2.2
      rw [heq] at this
      simp only [decide_eq_true_eq] at this
      exact this hkey
    · intro htok
      rw [List.mem_filter] at htok
      have := htok.2
      simp only [decide_eq_true_eq] at this
      exact this hkey

set_option maxRecDepth 4000 in
/-- C7 witness: removing pair `p1` from `g7` drops token B entirely. -/
theorem C7_remove_pair_clean_witness :
    ¬("B" ∈ (remove_pair g7 "p1").tokens) :=
  ((C7_remove_pair_clean g7 "p1").2
    ("B", [⟨"p1", "B", "A", "dex1", 1/2, 100, 3/1000, 1/100, 3/1000⟩])
    (by with_unfolding_all decide) (by with_unfolding_all rfl)).2

theorem dropWhile_eq_self_of_all {p : Char → Bool} {l : List Char}
    (h : ∀ c ∈ l, p c = false) : l.dropWhile p = l := by
  cases l with
  | nil => rfl
  | cons c rest =>
    rw [List.dropWhile_cons, if_neg (by simp [h c (List.mem_cons_self c rest)])]

theorem takeWhile_eq_self_of_all {p : Char → Bool} {l : List Char}
    (h : ∀ c ∈ l, p c = true) : l.takeWhile p = l := by
  induction l with
  | nil => rfl
  | cons c rest ih =>
    rw [List.takeWhile_cons, if_pos (by simp [h c (List.mem_cons_self c rest)])]
    rw [ih (fun x hx => h x (List.mem_cons_of_mem c hx))]

theorem dropWhile_eq_nil_of_all {p : Char → Bool} {l : List Char}
    (h : ∀ c ∈ l, p c = true) : l.dropWhile p = [] := by
  induction l with
  | nil => rfl
  | cons c rest ih =>
    rw [List.dropWhile_cons, if_pos (by simp [h c (List.mem_cons_self c rest)])]
    exact ih (fun x hx => h x (List.mem_cons_of_mem c hx))

theorem dropWhile_head_false {p : Char → Bool} {l : List Char} {c : Char}
    {rest : List Char} (h : l.dropWhile p = c :: rest) : p c = false := by
  induction l with
  | nil => cases h
  | cons x xs ih =>
    rw [List.dropWhile_cons] at h
    by_cases hx : p x = true
    · rw [if_pos (by simp [hx])] at h
      exact ih h
    · rw [if_neg (by simpa using hx)] at h
      cases h
      simpa using hx

theorem mem_of_mem_dropWhile {p : Char → Bool} {l : List Char} {c : Char}
    (h : c ∈ l.dropWhile p) : c ∈ l :=
  (List.dropWhile_sublist p (l := l)).subset h

theorem rustTrim_eq_self {l : List Char}
    (h : ∀ c ∈ l, c.isWhitespace = false) : rustTrim l = l := by
  unfold rustTrim
  rw [dropWhile_eq_self_of_all h]
  rw [dropWhile_eq_self_of_all (fun c hc => h c (List.mem_reverse.mp hc))]
  exact List.reverse_reverse l

theorem isWhitespace_false_of_isDigit {c : Char} (h : c.isDigit = true) :
    c.isWhitespace = false := by
  by_contra hh
  rw [Bool.not_eq_false] at hh
  have : ((c = ' ' ∨ c = '\t') ∨ c = '\x0d') ∨ c = '\n' := by
    simpa [Char.isWhitespace] using hh
  rcases this with ((h1 | h1) | h1) | h1 <;> subst h1 <;>
    exact absurd h (by decide)

theorem ne_of_isDigit {c x : Char} (h : c.isDigit = true)
    (hx : x.isDigit = false) : ¬(c = x) := by
  intro he
  subst he
  rw [h] at hx
  cases hx

theorem digitsToNat_foldl (cs : List Char) (a : ℕ) :
    cs.foldl (fun a c => a * 10 + (c.toNat - 48)) a =
      a * 10 ^ cs.length + digitsToNat cs := by
  induction cs generalizing a with
  | nil => simp [digitsToNat]
  | cons c rest ih =>
    simp only [List.foldl_cons, digitsToNat, List.length_cons]
    rw [ih (a * 10 + (c.toNat - 48)), ih (0 * 10 + (c.toNat - 48))]
    ring

theorem digitsToNat_cons (c : Char) (rest : List Char) :
    digitsToNat (c :: rest) =
      (c.toNat - 48) * 10 ^ rest.length + digitsToNat rest := by
  unfold digitsToNat
  rw [List.foldl_cons, digitsToNat_foldl]
  have h0 : (0 * 10 + (c.toNat - 48)) = c.toNat - 48 := by omega
  rw [h0]
  rfl

theorem toNat_ge_of_isDigit {c : Char} (h : c.isDigit = true) :
    48 ≤ c.toNat := by
  simp only [Char.isDigit, Bool.and_eq_true, decide_eq_true_eq,
    ge_iff_le] at h
  exact h.1

theorem eq_zero_char_of_toNat {c : Char} (h : c.toNat = 48) : c = '0' :=
  Char.ext (UInt32.ext h)

theorem digitsToNat_eq_zero_iff {cs : List Char}
    (h : ∀ c ∈ cs, c.isDigit = true) :
    digitsToNat cs = 0 ↔ ∀ c ∈ cs, c = '0' := by
  induction cs with
  | nil => simp [digitsToNat]
  | cons c rest ih =>
    rw [digitsToNat_cons]
    have hd := h c (List.mem_cons_self c rest)
    have hrest := fun x hx => h x (List.mem_cons_of_mem c hx)
    constructor
    · intro hz
      have h1 : (c.toNat - 48) * 10 ^ rest.length = 0 ∧
          digitsToNat rest = 0 := by
        constructor <;> omega
      have h2 : c.toNat - 48 = 0 := by
        rcases Nat.mul_eq_zero.mp h1.1 with h3 | h3
        · exact h3
        · exact absurd h3 (by positivity)
      have hc0 : c = '0' := by
        apply eq_zero_char_of_toNat
        have := toNat_ge_of_isDigit hd
        omega
      intro x hx
      rcases List.mem_cons.mp hx with h4 | h4
      · rw [h4, hc0]
      · exact (ih hrest).mp h1.2 x h4
    · intro hall
      have hc0 : c = '0' := hall c (List.mem_cons_self c rest)
      have : digitsToNat rest = 0 :=
        (ih hrest).mpr (fun x hx => hall x (List.mem_cons_of_mem c hx))
      rw [this, hc0]
      have h48 : ('0' : Char).toNat - 48 = 0 := by decide
      rw [h48]
      ring

theorem trimStartZeros_eq_nil_iff (cs : List Char) :
    trimStartZeros cs = [] ↔ ∀ c ∈ cs, c = '0' := by
  unfold trimStartZeros
  constructor
  · intro h c hc
    induction cs with
    | nil => cases hc
    | cons x xs ih =>
      rw [List.dropWhile_cons] at h
      by_cases hx : x = '0'
      · rcases List.mem_cons.mp hc with h1 | h1
        · rw [h1, hx]
        · exact ih (by rwa [if_pos (by simp [hx])] at h) h1
      · rw [if_neg (by simpa using hx)] at h
        cases h
  · intro h
    exact dropWhile_eq_nil_of_all (fun c hc => by simp [h c hc])

theorem trimEndZeros_eq_nil_iff (cs : List Char) :
    trimEndZeros cs = [] ↔ ∀ c ∈ cs, c = '0' := by
  unfold trimEndZeros
  rw [List.reverse_eq_nil_iff]
  have hh := trimStartZeros_eq_nil_iff cs.reverse
  unfold trimStartZeros at hh
  rw [hh]
  constructor
  · intro h c hc
    exact h c (List.mem_reverse.mpr hc)
  · intro h c hc
    exact h c (List.mem_reverse.mp hc)

theorem trimStartZeros_head_ne {cs : List Char} {c : Char}
    {rest : List Char} (h : trimStartZeros cs = c :: rest) : ¬(c = '0') := by
  have := dropWhile_head_false (p := fun c => decide (c = '0')) h
  simpa using this

theorem mem_of_mem_trimStartZeros {cs : List Char} {c : Char}
    (h : c ∈ trimStartZeros cs) : c ∈ cs :=
  mem_of_mem_dropWhile h

theorem splitDot_ne_nil (cs : List Char) : ¬(splitDot cs = []) := by
  induction cs with
  | nil => simp [splitDot]
  | cons c rest ih =>
    unfold splitDot
    by_cases hc : c = '.'
    · simp [hc]
    · rw [if_neg hc]
      cases hsp : splitDot rest with
      | nil => exact absurd hsp ih
      | cons p ps => simp

theorem splitDot_inv_single : ∀ (cs a : List Char),
    splitDot cs = [a] → cs = a := by
  intro cs
  induction cs with
  | nil => intro a h; cases h; rfl
  | cons c rest ih =>
    intro a h
    unfold splitDot at h
    by_cases hc : c = '.'
    · rw [if_pos hc] at h
      injection h with h1 h2
      exact absurd h2 (splitDot_ne_nil rest)
    · rw [if_neg hc] at h
      cases hsp : splitDot rest with
      | nil => exact absurd hsp (splitDot_ne_nil rest)
      | cons p ps =>
        rw [hsp] at h
        injection h with h1 h2
        subst h2
        subst h1
        have : rest = p := ih p hsp
        rw [this]

theorem splitDot_inv_pair : ∀ (cs a b : List Char),
    splitDot cs = [a, b] → cs = a ++ '.' :: b := by
  intro cs
  induction cs with
  | nil => intro a b h; cases h
  | cons c rest ih =>
    intro a b h
    unfold splitDot at h
    by_cases hc : c = '.'
    · rw [if_pos hc] at h
      injection h with h1 h2
      subst h1
      have : rest = b := splitDot_inv_single rest b (by
        cases hsp : splitDot rest
        · exact absurd hsp (splitDot_ne_nil rest)
        · rw [hsp] at h2; rw [h2])
      subst this
      rw [hc]
      rfl
    · rw [if_neg hc] at h
      cases hsp : splitDot rest with
      | nil => exact absurd hsp (splitDot_ne_nil rest)
      | cons p ps =>
        rw [hsp] at h
        injection h with h1 h2
        subst h1
        have : rest = p ++ '.' :: b := ih p b (by rw [hsp, h2])
        rw [this]
        rfl

theorem splitDot_no_dot {A : List Char} (h : ∀ c ∈ A, ¬(c = '.')) :
    splitDot A = [A] := by
  induction A with
  | nil => rfl
  | cons c rest ih =>
    unfold splitDot
    rw [if_neg (h c (List.mem_cons_self c rest))]
    rw [ih (fun x hx => h x (List.mem_cons_of_mem c hx))]

theorem splitDot_with_dot {A B : List Char}
    (hA : ∀ c ∈ A, ¬(c = '.')) (hB : ∀ c ∈ B, ¬(c = '.')) :
    splitDot (A ++ '.' :: B) = [A, B] := by
  induction A with
  | nil =>
    simp only [List.nil_append]
    unfold splitDot
    rw [if_pos rfl, splitDot_no_dot hB]
  | cons c rest ih =>
    simp only [List.cons_append]
    unfold splitDot
    rw [if_neg (hA c (List.mem_cons_self c rest))]
    rw [ih (fun x hx => hA x (List.mem_cons_of_mem c hx))]

theorem takeWhile_append_false {p : Char → Bool} {A : List Char}
    (hA : ∀ c ∈ A, p c = true) {x : Char} (hx : p x = false)
    (B : List Char) : (A ++ x :: B).takeWhile p = A := by
  induction A with
  | nil => simp [List.takeWhile_cons, hx]
  | cons c rest ih =>
    simp only [List.cons_append, List.takeWhile_cons,
      hA c (List.mem_cons_self c rest), if_true]
    rw [ih (fun y hy => hA y (List.mem_cons_of_mem c hy))]

theorem dropWhile_append_false {p : Char → Bool} {A : List Char}
    (hA : ∀ c ∈ A, p c = true) {x : Char} (hx : p x = false)
    (B : List Char) : (A ++ x :: B).dropWhile p = x :: B := by
  induction A with
  | nil => simp [List.dropWhile_cons, hx]
  | cons c rest ih =>
    simp only [List.cons_append, List.dropWhile_cons,
      hA c (List.mem_cons_self c rest), if_true]
    exact ih (fun y hy => hA y (List.mem_cons_of_mem c hy))

theorem parse_digits {A : List Char} (hA : ∀ c ∈ A, c.isDigit = true)
    (hne : ¬(A = [])) :
    parseDecimalList A = some ((digitsToNat A : ℚ)) := by
  cases A with
  | nil => exact absurd rfl hne
  | cons c rest =>
    have hc := hA c (List.mem_cons_self c rest)
    have hm : ¬(c = '-') := ne_of_isDigit hc (by decide)
    have hp : ¬(c = '+') := ne_of_isDigit hc (by decide)
    unfold parseDecimalList
    simp [List.head?_cons, hm, hp, takeWhile_eq_self_of_all hA,
      dropWhile_eq_nil_of_all hA]

theorem parse_dotted {A B : List Char}
    (hA : ∀ c ∈ A, c.isDigit = true) (hB : ∀ c ∈ B, c.isDigit = true)
    (hne : ¬(A = [] ∧ B = [])) :
    parseDecimalList (A ++ '.' :: B) =
      some ((digitsToNat A : ℚ) + (digitsToNat B : ℚ) / 10 ^ B.length) := by
  have hdot : Char.isDigit '.' = false := by decide
  have htake : (A ++ '.' :: B).takeWhile Char.isDigit = A :=
    takeWhile_append_false hA hdot B
  have hdrop : (A ++ '.' :: B).dropWhile Char.isDigit = '.' :: B :=
    dropWhile_append_false hA hdot B
  have hhead : ¬((A ++ '.' :: B).head? = some '-') ∧
      ¬((A ++ '.' :: B).head? = some '+') := by
    cases A with
    | nil => simp
    | cons c rest =>
      have hc := hA c (List.mem_cons_self c rest)
      have hm : ¬(c = '-') := ne_of_isDigit hc (by decide)
      have hp : ¬(c = '+') := ne_of_isDigit hc (by decide)
      simp only [List.cons_append, List.head?_cons]
      exact ⟨by simp [hm], by simp [hp]⟩
  have hcond : (B.all Char.isDigit = true) ∧ (A ≠ [] ∨ B ≠ []) := by
    refine ⟨by simpa [List.all_eq_true] using hB, ?_⟩
    rcases Decidable.not_and_iff_or_not.mp hne with h | h
    · exact Or.inl h
    · exact Or.inr h
  have e1 : ((A ++ '.' :: B).head? = some '-') = False := eq_false hhead.1
  have ep : ((A ++ '.' :: B).head? = some '+') = False := eq_false hhead.2
  unfold parseDecimalList
  simp only [e1, ep, false_or, if_false, htake, hdrop]
  rw [if_pos hcond]
  rw [one_mul]

theorem nonneg_decimal_zero {a b k : ℕ}
    (h : (a : ℚ) + (b : ℚ) / 10 ^ k = 0) : a = 0 ∧ b = 0 := by
  have h1 : (0 : ℚ) ≤ (a : ℚ) := by positivity
  have h2 : (0 : ℚ) ≤ (b : ℚ) / 10 ^ k := by positivity
  have ha : (a : ℚ) = 0 := by linarith
  have hb : (b : ℚ) / 10 ^ k = 0 := by linarith
  have hb2 : (b : ℚ) = 0 := by
    rcases div_eq_zero_iff.mp hb with h3 | h3
    · exact h3
    · exact absurd h3 (by positivity)
  exact ⟨by exact_mod_cast ha, by exact_mod_cast hb2⟩

theorem trimStartZeros_ne_nil_of_ne {x : List Char}
    (h : ¬(trimStartZeros x = [])) : ¬(x = []) := by
  intro hx
  rw [hx] at h
  exact h rfl

theorem convertCore_eq_amended (A B : List Char) (hA : ¬('-' ∈ A)) :
    convertCoreParts A B = amendedNormalizeParts A B := by
  simp only [convertCoreParts, amendedNormalizeParts]
  set ic := trimStartZeros A with hicdef
  set dc := trimEndZeros B with hdcdef
  set dnl := trimStartZeros dc with hdnldef
  have hic2 : ¬(ic = ['-']) := by
    intro h
    apply hA
    apply @mem_of_mem_trimStartZeros A
    rw [← hicdef, h]
    exact List.mem_singleton_self _
  have hic0 : ¬(ic = ['0']) := by
    intro h
    exact (@trimStartZeros_head_ne A '0' [] (by rw [← hicdef]; exact h)) rfl
  have hdcdnl : dc = [] → dnl = [] := by
    intro h
    rw [hdnldef, h]
    rfl
  have hdnldc : ¬(dnl = []) → ¬(dc = []) := fun h h2 => h (hdcdnl h2)
  by_cases hic : ic = [] <;> by_cases hdnl : dnl = []
  · by_cases hdc : dc = [] <;>
      split_ifs <;> simp_all [List.append_eq_nil]
  · have hdc := hdnldc hdnl
    split_ifs <;> simp_all [List.append_eq_nil]
  · by_cases hdc : dc = [] <;>
      split_ifs <;> simp_all [List.append_eq_nil]
  · have hdc := hdnldc hdnl
    split_ifs <;> simp_all [List.append_eq_nil]

theorem ws_false_of_wf {a : List Char} (hA : ∀ c ∈ a, c.isDigit = true) :
    ∀ c ∈ a, c.isWhitespace = false :=
  fun c hc => isWhitespace_false_of_isDigit (hA c hc)

theorem convert_eq_amended_of_wf (s : String) (hwf : isWfDecimalStr s = true) :
    convert_decimal_to_integer_string s = amendedNormalize s := by
  by_cases hs : s = ""
  · subst hs; rfl
  have hsl : ¬(s.toList = []) := fun h => hs (String.ext h)
  unfold isWfDecimalStr at hwf
  cases hsp : splitDot s.toList with
  | nil => exact absurd hsp (splitDot_ne_nil _)
  | cons a t =>
    cases t with
    | nil =>
      have hwfa : a.all Char.isDigit = true := by rw [hsp] at hwf; exact hwf
      have hAdig : ∀ c ∈ a, c.isDigit = true := by
        simpa [List.all_eq_true] using hwfa
      have hnom : ¬('-' ∈ a) := fun hmem =>
        absurd (hAdig '-' hmem) (by decide)
      have hcs : s.toList = a := splitDot_inv_single _ _ hsp
      have hane : ¬(a = []) := by rw [← hcs]; exact hsl
      have htrim : rustTrim s.toList = s.toList := by
        rw [hcs]; exact rustTrim_eq_self (ws_false_of_wf hAdig)
      have hparse : parseDecimalList s.toList =
          some ((digitsToNat a : ℚ)) := by
        rw [hcs]; exact parse_digits hAdig hane
      unfold convert_decimal_to_integer_string amendedNormalize
      rw [if_neg hs, if_neg hs]
      simp only [htrim, hparse, hsp, List.headD, List.getD, List.get?,
        Option.getD_none]
      by_cases hz : digitsToNat a = 0
      · rw [if_pos (by simp [hz])]
        have hall : ∀ c ∈ a, c = '0' := (digitsToNat_eq_zero_iff hAdig).mp hz
        unfold amendedNormalizeParts
        rw [(trimStartZeros_eq_nil_iff a).mpr hall]
        rfl
      · rw [if_neg (by simp [hz])]
        rw [convertCore_eq_amended a [] hnom]
    | cons b t2 =>
      cases t2 with
      | cons x xs => rw [hsp] at hwf; cases hwf
      | nil =>
        have hwfab : a.all Char.isDigit = true ∧
            b.all Char.isDigit = true := by
          rw [hsp] at hwf
          simpa [Bool.and_eq_true] using hwf
        have hAdig : ∀ c ∈ a, c.isDigit = true := by
          simpa [List.all_eq_true] using hwfab.1
        have hBdig : ∀ c ∈ b, c.isDigit = true := by
          simpa [List.all_eq_true] using hwfab.2
        have hnom : ¬('-' ∈ a) := fun hmem =>
          absurd (hAdig '-' hmem) (by decide)
        have hcs : s.toList = a ++ '.' :: b := splitDot_inv_pair _ _ _ hsp
        have htrim : rustTrim s.toList = s.toList := by
          rw [hcs]
          apply rustTrim_eq_self
          intro c hc
          rcases List.mem_append.mp hc with h1 | h1
          · exact isWhitespace_false_of_isDigit (hAdig c h1)
          · rcases List.mem_cons.mp h1 with h2 | h2
            · rw [h2]; decide
            · exact isWhitespace_false_of_isDigit (hBdig c h2)
        unfold convert_decimal_to_integer_string amendedNormalize
        rw [if_neg hs, if_neg hs]
        by_cases hde : a = [] ∧ b = []
        · have hparse : parseDecimalList s.toList = none := by
            rw [hcs, hde.1, hde.2]
            rfl
          simp only [htrim, hparse, hsp, List.headD, List.getD, List.get?,
            Option.getD_some, Bool.false_eq_true, if_false]
          rw [convertCore_eq_amended a b hnom]
        · have hparse : parseDecimalList s.toList =
              some ((digitsToNat a : ℚ) +
                (digitsToNat b : ℚ) / 10 ^ b.length) := by
            rw [hcs]
            exact parse_dotted hAdig hBdig hde
          simp only [htrim, hparse, hsp, List.headD, List.getD, List.get?,
            Option.getD_some]
          by_cases hz : (digitsToNat a : ℚ) +
              (digitsToNat b : ℚ) / 10 ^ b.length = 0
          · rw [if_pos (by simp [hz])]
            obtain ⟨haz, hbz⟩ := nonneg_decimal_zero hz
            have halla : ∀ c ∈ a, c = '0' :=
              (digitsToNat_eq_zero_iff hAdig).mp haz
            have hallb : ∀ c ∈ b, c = '0' :=
              (digitsToNat_eq_zero_iff hBdig).mp hbz
            unfold amendedNormalizeParts
            rw [(trimEndZeros_eq_nil_iff b).mpr hallb]
            rw [(trimStartZeros_eq_nil_iff a).mpr halla]
            rfl
          · rw [if_neg (by simp [hz])]
            rw [convertCore_eq_amended a b hnom]

/-- C9 counterexample: on "102.03" the code returns "1023" while the
claimed normalization (decimal point removed, leading zeros stripped,
fractional trailing zeros collapsed, digit order preserved) gives
"10203": the fraction's leading zero is dropped although a non-zero
integer part precedes it. -/
theorem C9_normalization_counterexample :
    convert_decimal_to_integer_string "102.03" = "1023" ∧
    specNormalize "102.03" = "10203" ∧
    ¬(("1023" : String) = "10203") :=
  ⟨by with_unfolding_all rfl, by with_unfolding_all rfl, by decide⟩

/-- C9 (amended): on every unsigned well-formed decimal string (digits
with at most one decimal point) the normalization returns the integer
digits stripped of leading zeros concatenated with the fractional digits
stripped of trailing and then of leading zeros (empty results collapse
to "0"), and the six concrete mappings of the claim all hold.  A leading
minus sign is instead kept as an ordinary first character of the integer
part: it blocks leading-zero stripping ("-0.5" becomes "-05") and is
carried into the output ("-123.45" becomes "-12345"), except that an
integer part of exactly "-" collapses to "0" and is dropped before a
non-empty fraction, losing the sign ("-.5" becomes "5"); so the unsigned
rule does not extend to signed inputs. -/
theorem C9_normalization_amended :
    (∀ s, isWfDecimalStr s = true →
      convert_decimal_to_integer_string s = amendedNormalize s) ∧
    convert_decimal_to_integer_string "123.456" = "123456" ∧
    convert_decimal_to_integer_string "0.001" = "1" ∧
    convert_decimal_to_integer_string "0" = "0" ∧
    convert_decimal_to_integer_string "1000.0" = "1000" ∧
    convert_decimal_to_integer_string "000123.4500" = "12345" ∧
    convert_decimal_to_integer_string "" = "0" ∧
    convert_decimal_to_integer_string "-123.45" = "-12345" ∧
    convert_decimal_to_integer_string "-0.5" = "-05" ∧
    convert_decimal_to_integer_string "-.5" = "5" ∧
    ¬(convert_decimal_to_integer_string "-.5" = amendedNormalize "-.5") :=
  ⟨convert_eq_amended_of_wf, by with_unfolding_all rfl,
    by with_unfolding_all rfl, by with_unfolding_all rfl,
    by with_unfolding_all rfl, by with_unfolding_all rfl, rfl,
    by with_unfolding_all rfl, by with_unfolding_all rfl,
    by with_unfolding_all rfl, by with_unfolding_all decide⟩

/-- C9 witness: the amended equation instantiated on "000123.4500". -/
theorem C9_normalization_amended_witness :
    isWfDecimalStr "000123.4500" = true ∧
    convert_decimal_to_integer_string "000123.4500" =
      amendedNormalize "000123.4500" :=
  ⟨by with_unfolding_all rfl,
    C9_normalization_amended.1 "000123.4500" (by with_unfolding_all rfl)⟩

theorem PathOk_nil (start : String) : PathOk start start 0 1 [] := by
  refine ⟨rfl, List.chain'_nil, ?_, ?_, fun _ => ⟨rfl, rfl⟩, ?_, ?_, ?_⟩
  · intro h0 h; cases h
  · intro hl h; cases h
  · intro h; exact absurd h (by simp)
  · intro i h; exact absurd h (by simp)
  · intro i h; exact absurd h (by simp)

theorem edges_from_token {g : ExchangeGraph} (hWF : GraphWF g)
    {t : String} {edges : List ExchangeEdge}
    (h : get_edges_from g t = some edges) :
    ∀ e ∈ edges, e.from_token = t := by
  intro e he
  unfold get_edges_from at h
  cases hf : g.adjacency_list.find? (fun kv => kv.1 == t) with
  | none => rw [hf] at h; cases h
  | some kv =>
    rw [hf] at h
    have hkey : kv.1 = t := by
      have := List.find?_some hf
      simpa using this
    have hmem : kv ∈ g.adjacency_list := List.mem_of_find?_eq_some hf
    have hedges : kv.2 = edges := by simpa using h
    rw [← hkey]
    exact hWF kv hmem e (by rw [hedges]; exact he)

theorem PathOk_push {start current : String} {depth : ℕ} {amount : ℚ}
    {p : List ArbitrageHop} {e : ExchangeEdge}
    (hp : PathOk start current depth amount p)
    (hfrom : e.from_token = current)
    (hskip : ¬(0 < depth ∧ e.to_token = start ∧ depth < 2)) :
    PathOk start e.to_token (depth + 1)
      (calculate_amount_after_swap amount e) (p ++ [mkHop p amount e]) := by
  have hlen := hp.len_eq
  refine ⟨?_, ?_, ?_, ?_, ?_, ?_, ?_, ?_⟩
  · simp [hlen]
  · rw [List.chain'_append]
    refine ⟨hp.links, List.chain'_singleton _, ?_⟩
    intro x hx y hy
    simp only [List.head?_cons, Option.mem_def, Option.some.injEq] at hy
    subst hy
    have hlast := hp.last_to x (by simpa using hx)
    constructor
    · show (mkHop p amount e).edge.from_token = x.edge.to_token
      rw [hlast.1]
      exact hfrom
    · show (mkHop p amount e).amount_in = x.amount_out
      rw [hlast.2]
      rfl
  · intro h0 hh
    cases p with
    | nil =>
      simp only [List.nil_append, List.head?_cons, Option.some.injEq] at hh
      subst hh
      obtain ⟨hcur, hamt⟩ := hp.nil_case rfl
      constructor
      · show e.from_token = start
        rw [hfrom, hcur]
      · show amount = 1
        exact hamt
    | cons c rest =>
      simp only [List.cons_append, List.head?_cons, Option.some.injEq] at hh
      subst hh
      exact hp.head_from c rfl
  · intro hl hh
    rw [List.getLast?_concat] at hh
    cases hh
    exact ⟨rfl, rfl⟩
  · intro h
    exact absurd h (by simp)
  · intro h
    by_cases hp1 : 1 < p.length
    · have : (p ++ [mkHop p amount e]).get ⟨1, h⟩ = p.get ⟨1, hp1⟩ := by
        simp only [List.get_eq_getElem]
        rw [List.getElem_append_left hp1]
      rw [this]
      exact hp.second_hop hp1
    · have hplen : p.length = 1 := by
        simp only [List.length_append, List.length_cons,
          List.length_nil] at h
        omega
      have hdepth1 : depth = 1 := by omega
      have : (p ++ [mkHop p amount e]).get ⟨1, h⟩ = mkHop p amount e := by
        rw [List.get_eq_getElem]
        rw [List.getElem_append_right hplen.le]
        simp [hplen]
      rw [this]
      show ¬(e.to_token = start)
      intro hto
      exact hskip ⟨by omega, hto, by omega⟩
  · intro i hi
    have hcases : i < p.length ∨ i = p.length := by
      simp only [List.length_append, List.length_cons,
        List.length_nil] at hi
      omega
    rcases hcases with hlt | heq
    · have hget : (p ++ [mkHop p amount e]).get ⟨i, hi⟩ =
          p.get ⟨i, hlt⟩ := by
        rw [List.get_eq_getElem, List.get_eq_getElem,
          List.getElem_append_left hlt]
      have htake : (p ++ [mkHop p amount e]).take i = p.take i :=
        List.take_append_of_le_length (by omega)
      rw [hget, htake]
      exact hp.cum_gas i hlt
    · subst heq
      have hget : (p ++ [mkHop p amount e]).get ⟨p.length, hi⟩ =
          mkHop p amount e := by
        rw [List.get_eq_getElem]
        rw [List.getElem_append_right le_rfl]
        simp
      have htake : (p ++ [mkHop p amount e]).take p.length = p :=
        List.take_left p [mkHop p amount e]
      rw [hget, htake]
      show calculate_cumulative_gas p e.gas_cost = e.gas_cost +
        (p.map (fun x => x.cumulative_gas)).sum
      rw [calculate_cumulative_gas_eq]
      ring
  · intro i hi
    have hcases : i < p.length ∨ i = p.length := by
      simp only [List.length_append, List.length_cons,
        List.length_nil] at hi
      omega
    rcases hcases with hlt | heq
    · have hget : (p ++ [mkHop p amount e]).get ⟨i, hi⟩ =
          p.get ⟨i, hlt⟩ := by
        rw [List.get_eq_getElem, List.get_eq_getElem,
          List.getElem_append_left hlt]
      have htake : (p ++ [mkHop p amount e]).take i = p.take i :=
        List.take_append_of_le_length (by omega)
      rw [hget, htake]
      exact hp.cum_fees i hlt
    · subst heq
      have hget : (p ++ [mkHop p amount e]).get ⟨p.length, hi⟩ =
          mkHop p amount e := by
        rw [List.get_eq_getElem]
        rw [List.getElem_append_right le_rfl]
        simp
      have htake : (p ++ [mkHop p amount e]).take p.length = p :=
        List.take_left p [mkHop p amount e]
      rw [hget, htake]
      show calculate_cumulative_fees p amount e =
        amount * e.fee_percentage +
        (p.map (fun x => x.cumulative_fees)).sum
      rw [calculate_cumulative_fees_eq]
      ring

theorem build_chain_ChainInv {F : ArbitrageChainFinder} {start : String}
    {depth : ℕ} {amount : ℚ} {p : List ArbitrageHop}
    (hp : PathOk start start depth amount p) (hdep : depth ≤ F.max_hops)
    (hd : 1 < depth)
    (haccp : F.min_profit_percentage ≤
      (build_arbitrage_chain start p amount).profit_percentage)
    (haccr : (build_arbitrage_chain start p amount).risk_score ≤
      F.max_risk_score) :
    ChainInv F start (build_arbitrage_chain start p amount) := by
  have hhops : (build_arbitrage_chain start p amount).hops = p := rfl
  have hlen := hp.len_eq
  have hge3 : 3 ≤ p.length := by
    by_contra hlt
    have hplen2 : p.length = 2 := by omega
    have h1lt : 1 < p.length := by omega
    have hlast : p.getLast? = some (p.get ⟨1, h1lt⟩) := by
      rw [List.getLast?_eq_getElem?]
      have hidx : p.length - 1 = 1 := by omega
      rw [hidx]
      rw [List.getElem?_eq_getElem h1lt]
      rfl
    have hto := (hp.last_to _ hlast).1
    exact hp.second_hop h1lt hto
  refine ⟨?_, ?_, ?_, ?_, ?_, haccp, haccr, ?_, ?_, ?_, ?_, ?_, ?_⟩
  · rw [hhops]
    intro hnil
    rw [hnil] at hlen
    simp at hlen
    omega
  · rw [hhops]
    intro h0 hh
    exact (hp.head_from h0 hh).1
  · rw [hhops]
    intro h0 hh
    exact (hp.head_from h0 hh).2
  · rw [hhops]
    intro hl hh
    exact (hp.last_to hl hh).1
  · rw [hhops]
    exact hp.links
  · rw [hhops, hlen]
    exact hdep
  · rw [hhops]
    exact hge3
  · rw [hhops]
    exact hp.cum_gas
  · rw [hhops]
    exact hp.cum_fees
  · rfl
  · rfl

theorem dfs_search_master (F : ArbitrageChainFinder) (lg : ℚ → ℚ)
    (g : ExchangeGraph) (start : String) (hWF : GraphWF g) :
    ∀ fuel depth current amount st,
      depth ≤ F.max_hops →
      PathOk start current depth amount st.path →
      (∀ c ∈ st.chains, ChainInv F start c) →
      (dfs_search F lg g start fuel depth current amount st).path =
        st.path ∧
      ∀ c ∈ (dfs_search F lg g start fuel depth current amount st).chains,
        ChainInv F start c := by
  intro fuel
  induction fuel with
  | zero =>
    intro depth current amount st _ _ hc
    exact ⟨rfl, hc⟩
  | succ fuel ih =>
    intro depth current amount st hdep hp hc
    rw [dfs_search]
    rw [dfs_step]
    by_cases h1 : F.enable_early_pruning = true ∧
        amount < F.min_amount_threshold
    · rw [if_pos h1]; exact ⟨rfl, hc⟩
    rw [if_neg h1]
    by_cases h2 : F.enable_early_pruning = true ∧
        F.max_chains_per_token * 2 ≤ st.chains.length
    · rw [if_pos h2]; exact ⟨rfl, hc⟩
    rw [if_neg h2]
    by_cases h3 : current = start ∧ 1 < depth
    · rw [if_pos h3]
      have hp2 : PathOk start start depth amount st.path := h3.1 ▸ hp
      by_cases h4 : F.min_profit_percentage ≤
          (build_arbitrage_chain start st.path amount).profit_percentage ∧
          (build_arbitrage_chain start st.path amount).risk_score ≤
            F.max_risk_score
      · rw [if_pos h4]
        refine ⟨rfl, ?_⟩
        intro c hcm
        rcases List.mem_append.mp hcm with hm | hm
        · exact hc c hm
        · rw [List.mem_singleton] at hm
          subst hm
          exact build_chain_ChainInv hp2 hdep h3.2 h4.1 h4.2
      · rw [if_neg h4]; exact ⟨rfl, hc⟩
    rw [if_neg h3]
    by_cases h5 : F.max_hops ≤ depth
    · rw [if_pos h5]; exact ⟨rfl, hc⟩
    rw [if_neg h5]
    cases hge : get_edges_from g current with
    | none => exact ⟨rfl, hc⟩
    | some edges =>
      have hfromAll : ∀ e ∈ edges, e.from_token = current :=
        edges_from_token hWF hge
      have hsortedMem : ∀ e, e ∈ (if F.enable_early_pruning = true then
          edges.insertionSort (fun a b =>
            calculate_edge_priority_score F lg b ≤
              calculate_edge_priority_score F lg a)
          else edges) → e ∈ edges := by
        intro e he
        by_cases hpr : F.enable_early_pruning = true
        · rw [if_pos hpr] at he
          exact (List.mem_insertionSort _).mp he
        · rw [if_neg hpr] at he
          exact he
      change (List.foldl _ st _).path = st.path ∧
        ∀ c ∈ (List.foldl _ st _).chains, ChainInv F start c
      refine List.foldlRecOn
        (motive := fun (stx : SearchState) => stx.path = st.path ∧
          ∀ c ∈ stx.chains, ChainInv F start c) _ _ _ ⟨rfl, hc⟩ ?_
      intro stx hstx e hemem
      dsimp only
      have hfrom : e.from_token = current :=
        hfromAll e (hsortedMem e hemem)
      by_cases hb1 : 0 < depth ∧ e.to_token = start ∧ depth < 2
      · rw [if_pos hb1]; exact hstx
      rw [if_neg hb1]
      by_cases hb2 : ¬(is_edge_acceptable F e stx.visited start = true)
      · rw [if_pos hb2]; exact hstx
      rw [if_neg hb2]
      have hpath1 :
          (SearchState.mk (insertToken current stx.visited)
            (stx.path ++ [mkHop stx.path amount e]) stx.chains).path =
            st.path ++ [mkHop st.path amount e] := by
        simp [hstx.1]
      have hrec := ih (depth + 1) e.to_token
        (calculate_amount_after_swap amount e)
        (SearchState.mk (insertToken current stx.visited)
          (stx.path ++ [mkHop stx.path amount e]) stx.chains)
        (by omega)
        (by rw [hpath1]; exact PathOk_push hp hfrom hb1)
        (fun c hcm => hstx.2 c hcm)
      constructor
      · show (dfs_search F lg g start fuel (depth + 1) e.to_token
          (calculate_amount_after_swap amount e) _).path.dropLast = st.path
        rw [hrec.1, hpath1]
        exact List.dropLast_concat
      · exact hrec.2

/-- Every chain in a successful `find_arbitrage_chains` result satisfies
the full search invariant. -/
theorem find_chains_ChainInv (F : ArbitrageChainFinder) (lg : ℚ → ℚ)
    (g : ExchangeGraph) (start : String) (hWF : GraphWF g)
    (l : List ArbitrageChain)
    (hfind : find_arbitrage_chains F lg g start = .ok l) :
    ∀ c ∈ l, ChainInv F start c := by
  intro c hcm
  rw [find_arbitrage_chains] at hfind
  by_cases hs : ¬(start ∈ g.tokens)
  · rw [if_pos hs] at hfind
    exact absurd hfind (by simp)
  rw [if_neg hs] at hfind
  have hmaster := dfs_search_master F lg g start hWF (F.max_hops + 1) 0
    start 1 ⟨[], [], []⟩ (Nat.zero_le _) (PathOk_nil start)
    (fun c hc => absurd hc (List.not_mem_nil c))
  dsimp only at hfind
  rw [Except.ok.injEq] at hfind
  subst hfind
  have hsorted : c ∈ ((dfs_search F lg g start (F.max_hops + 1) 0 start 1
      ⟨[], [], []⟩).chains.insertionSort (fun a b =>
        b.net_profit ≤ a.net_profit)) := by
    split at hcm
    · exact List.take_subset _ _ hcm
    · exact hcm
  exact hmaster.2 c ((List.mem_insertionSort _).mp hsorted)

/-- The scenario 8.3 graph is well-formed: every stored edge leaves its
own adjacency key. -/
theorem G8_WF : GraphWF G8 := by
  intro kv hkv e he
  fin_cases hkv <;> simp_all [G8, eAB, eBC, eCA]

/-- C1: every chain returned by `find_arbitrage_chains` on a well-formed
graph has a non-empty hop list that starts and ends at the start token,
consecutive hops chain by token and by amount, the profit percentage is
at least `min_profit_percentage`, the risk score is at most
`max_risk_score`, and the hop count is at most `max_hops`. -/
theorem C1_chain_invariants (F : ArbitrageChainFinder) (lg : ℚ → ℚ)
    (g : ExchangeGraph) (start : String) (hWF : GraphWF g)
    (l : List ArbitrageChain)
    (hfind : find_arbitrage_chains F lg g start = .ok l) :
    ∀ c ∈ l,
      c.hops ≠ [] ∧
      (∀ h0, c.hops.head? = some h0 → h0.edge.from_token = start) ∧
      (∀ hl, c.hops.getLast? = some hl → hl.edge.to_token = start) ∧
      List.Chain' LinkOk c.hops ∧
      F.min_profit_percentage ≤ c.profit_percentage ∧
      c.risk_score ≤ F.max_risk_score ∧
      c.hops.length ≤ F.max_hops := by
  intro c hcm
  have hinv := find_chains_ChainInv F lg g start hWF l hfind c hcm
  exact ⟨hinv.nonempty, hinv.head_from, hinv.last_to, hinv.links,
    hinv.profit_ok, hinv.risk_ok, hinv.hops_le⟩

set_option maxRecDepth 3000 in
/-- C1 witness: the scenario 8.3 run satisfies every hypothesis, and the
returned chain obeys the invariants. -/
theorem C1_chain_invariants_witness :
    cW.hops ≠ [] ∧
    List.Chain' LinkOk cW.hops ∧
    F8.min_profit_percentage ≤ cW.profit_percentage ∧
    cW.risk_score ≤ F8.max_risk_score ∧
    cW.hops.length ≤ F8.max_hops := by
  have h := C1_chain_invariants F8 lg0 G8 "A" G8_WF chainsW
    (by with_unfolding_all rfl) cW (by
      have hW : chainsW = [cW] := by with_unfolding_all rfl
      rw [hW]
      exact List.mem_singleton_self cW)
  exact ⟨h.1, h.2.2.2.1, h.2.2.2.2.1, h.2.2.2.2.2.1, h.2.2.2.2.2.2⟩

set_option maxRecDepth 3000 in
/-- C2 counterexample: on the scenario 8.3 graph every edge costs
3/1000 gas, yet the third hop's `cumulative_gas` is 3/250 = 12/1000,
not the claimed plain sum 9/1000: `calculate_cumulative_gas` folds over
the previous hops' cumulative values, double-counting earlier gas. -/
theorem C2_cumulative_counterexample :
    cW.hops.map (fun h => h.cumulative_gas) = [3/1000, 3/500, 3/250] ∧
    cW.hops.map (fun h => h.edge.gas_cost) = [3/1000, 3/1000, 3/1000] ∧
    (3 : ℚ)/250 ≠ 3/1000 + 3/1000 + 3/1000 :=
  ⟨by with_unfolding_all rfl, by with_unfolding_all rfl, by norm_num⟩

/-- C2 amended: for every chain returned by `find_arbitrage_chains`,
hop i's `cumulative_gas` equals its own `edge.gas_cost` plus the sum of
the CUMULATIVE gas of hops 0..i-1 (and analogously for fees), and the
chain totals equal the last hop's cumulative values (0 if empty). -/
theorem C2_cumulative_amended (F : ArbitrageChainFinder) (lg : ℚ → ℚ)
    (g : ExchangeGraph) (start : String) (hWF : GraphWF g)
    (l : List ArbitrageChain)
    (hfind : find_arbitrage_chains F lg g start = .ok l) :
    ∀ c ∈ l,
      (∀ i (h : i < c.hops.length),
        (c.hops.get ⟨i, h⟩).cumulative_gas =
          (c.hops.get ⟨i, h⟩).edge.gas_cost +
          ((c.hops.take i).map (fun x => x.cumulative_gas)).sum) ∧
      (∀ i (h : i < c.hops.length),
        (c.hops.get ⟨i, h⟩).cumulative_fees =
          (c.hops.get ⟨i, h⟩).amount_in *
            (c.hops.get ⟨i, h⟩).edge.fee_percentage +
          ((c.hops.take i).map (fun x => x.cumulative_fees)).sum) ∧
      c.total_gas_cost =
        ((c.hops.getLast?).map (fun x => x.cumulative_gas)).getD 0 ∧
      c.total_fees =
        ((c.hops.getLast?).map (fun x => x.cumulative_fees)).getD 0 := by
  intro c hcm
  have hinv := find_chains_ChainInv F lg g start hWF l hfind c hcm
  exact ⟨hinv.cum_gas, hinv.cum_fees, hinv.total_gas, hinv.total_fees⟩

set_option maxRecDepth 3000 in
/-- C2 amended witness: the scenario 8.3 chain satisfies the amended
cumulative identities, instantiated at the last hop. -/
theorem C2_cumulative_amended_witness :
    cW.total_gas_cost =
      ((cW.hops.getLast?).map (fun x => x.cumulative_gas)).getD 0 ∧
    cW.total_fees =
      ((cW.hops.getLast?).map (fun x => x.cumulative_fees)).getD 0 := by
  have h := C2_cumulative_amended F8 lg0 G8 "A" G8_WF chainsW
    (by with_unfolding_all rfl) cW (by
      have hW : chainsW = [cW] := by with_unfolding_all rfl
      rw [hW]
      exact List.mem_singleton_self cW)
  exact ⟨h.2.2.1, h.2.2.2⟩

/-- C10: every chain returned by `find_arbitrage_chains` has at least 3
hops and at most `max_hops` hops; therefore with `max_hops = 2` the
finder always returns the empty list. -/
theorem C10_min_three_hops (F : ArbitrageChainFinder) (lg : ℚ → ℚ)
    (g : ExchangeGraph) (start : String) (hWF : GraphWF g)
    (l : List ArbitrageChain)
    (hfind : find_arbitrage_chains F lg g start = .ok l) :
    (∀ c ∈ l, 3 ≤ c.hops.length ∧ c.hops.length ≤ F.max_hops) ∧
    (F.max_hops = 2 → l = []) := by
  constructor
  · intro c hcm
    have hinv := find_chains_ChainInv F lg g start hWF l hfind c hcm
    exact ⟨hinv.hops_ge, hinv.hops_le⟩
  · intro h2
    cases l with
    | nil => rfl
    | cons c cs =>
      have hinv := find_chains_ChainInv F lg g start hWF _ hfind c
        (List.mem_cons_self c cs)
      have h3 := hinv.hops_ge
      have h4 := hinv.hops_le
      omega

set_option maxRecDepth 3000 in
/-- C10 witness: the scenario 8.3 chain has exactly 3 hops, and the same
graph searched with `max_hops = 2` yields the empty list. -/
theorem C10_min_three_hops_witness :
    3 ≤ cW.hops.length ∧ chainsW2 = [] := by
  refine ⟨((C10_min_three_hops F8 lg0 G8 "A" G8_WF chainsW
    (by with_unfolding_all rfl)).1 cW (by
      have hW : chainsW = [cW] := by with_unfolding_all rfl
      rw [hW]
      exact List.mem_singleton_self cW)).1,
    (C10_min_three_hops F8two lg0 G8 "A" G8_WF chainsW2
      (by with_unfolding_all rfl)).2 rfl⟩

/-- `updateFirstWhere` rewrites exactly the first matching element. -/
theorem updateFirstWhere_spec (pr : ExchangeEdge → Bool)
    (f : ExchangeEdge → ExchangeEdge) (l0 : List ExchangeEdge)
    (e0 : ExchangeEdge) (r0 : List ExchangeEdge)
    (hl0 : ∀ e ∈ l0, pr e = false) (he0 : pr e0 = true) :
    updateFirstWhere pr f (l0 ++ e0 :: r0) = some (l0 ++ f e0 :: r0) := by
  induction l0 with
  | nil => simp [updateFirstWhere, he0]
  | cons a l ih =>
    have ha : pr a = false := hl0 a (List.mem_cons_self a l)
    simp only [List.cons_append, updateFirstWhere, ha, Bool.false_eq_true,
      if_false, List.append_eq]
    rw [ih (fun e he => hl0 e (List.mem_cons_of_mem a he))]
    simp

/-- A found index points at an element satisfying the predicate. -/
theorem findIdx?_pred_at {α : Type} (p : α → Bool) (l : List α) :
    ∀ i x, l.findIdx? p = some i → l.get? i = some x → p x = true := by
  induction l with
  | nil => intro i x h; simp at h
  | cons a l ih =>
    intro i x h hg
    rw [List.findIdx?_cons] at h
    by_cases hp : p a = true
    · rw [if_pos hp] at h
      cases h
      simp only [List.get?] at hg
      cases hg
      exact hp
    · rw [if_neg hp, List.findIdx?_succ] at h
      cases hfi : l.findIdx? p with
      | none => rw [hfi] at h; simp at h
      | some j =>
        rw [hfi] at h
        simp at h
        subst h
        exact ih j x hfi (by simpa using hg)

/-- Replacing a list element by one with the same predicate value leaves
`findIdx?` unchanged, for every start index. -/
theorem findIdx?_set_congr {α : Type} (p : α → Bool) :
    ∀ (l : List α) (i : ℕ) (x y : α), l.get? i = some y → p x = p y →
    ∀ j, (l.set i x).findIdx? p j = l.findIdx? p j := by
  intro l
  induction l with
  | nil => intro i x y h; simp at h
  | cons a l ih =>
    intro i x y hget hp j
    cases i with
    | zero =>
      simp only [List.get?] at hget
      cases hget
      simp only [List.set]
      rw [List.findIdx?_cons, List.findIdx?_cons, hp]
    | succ i' =>
      simp only [List.get?] at hget
      simp only [List.set]
      rw [List.findIdx?_cons, List.findIdx?_cons]
      by_cases hpa : p a = true
      · rw [if_pos hpa, if_pos hpa]
      · rw [if_neg hpa, if_neg hpa]
        rw [List.findIdx?_succ, List.findIdx?_succ]
        rw [ih i' x y hget hp]

/-- `update_existing_edge` under a successful three-stage lookup. -/
theorem update_existing_edge_eq (adj : List (String × List ExchangeEdge))
    (frm tto pid : String) (r li : ℚ) (i : ℕ)
    (kv : String × List ExchangeEdge) (l2 : List ExchangeEdge)
    (hidx : adj.findIdx? (fun kv => kv.1 == frm) = some i)
    (hget : adj.get? i = some kv)
    (hupd : updateFirstWhere (fun e => e.to_token == tto && e.pair_id == pid)
      (fun e => refreshEdge e r li) kv.2 = some l2) :
    update_existing_edge adj frm tto pid r li = (true, adj.set i (kv.1, l2)) := by
  simp only [update_existing_edge, hidx, hget, hupd]

/-- Validation succeeds only when the two token symbols differ. -/
theorem validate_ok_symbols_ne (p : PairData)
    (hv : validate_pair_data p = .ok ()) :
    p.token0.symbol ≠ p.token1.symbol := by
  intro heq
  rw [validate_pair_data] at hv
  split_ifs at hv

/-- C6: a successful `update_pair_data` on a pair whose forward and
reverse edges (keyed by source token, destination token and pair id)
already exist refreshes exactly those two edges in place: each stored
edge list keeps its length and order, the matched edges are replaced at
their own positions by the refreshed edges, every other entry and the
token set are untouched, and nothing is appended. -/
theorem C6_upsert_in_place (g : ExchangeGraph) (p : PairData) (P L : ℚ)
    (i0 i1 : ℕ) (k0 k1 : String)
    (l0 r0 l1 r1 : List ExchangeEdge) (e0 e1 : ExchangeEdge)
    (hv : validate_pair_data p = .ok ())
    (hprice : calculate_price_from_pair p = .ok P)
    (hPnz : ¬(P = 0))
    (hL : parseDecimal p.reserve_usd = some L)
    (hi0 : g.adjacency_list.findIdx?
      (fun kv => kv.1 == p.token0.symbol) = some i0)
    (hget0 : g.adjacency_list.get? i0 = some (k0, l0 ++ e0 :: r0))
    (hl0 : ∀ e ∈ l0, ¬(e.to_token = p.token1.symbol ∧ e.pair_id = p.id))
    (he0 : e0.to_token = p.token1.symbol ∧ e0.pair_id = p.id)
    (hi1 : g.adjacency_list.findIdx?
      (fun kv => kv.1 == p.token1.symbol) = some i1)
    (hget1 : g.adjacency_list.get? i1 = some (k1, l1 ++ e1 :: r1))
    (hl1 : ∀ e ∈ l1, ¬(e.to_token = p.token0.symbol ∧ e.pair_id = p.id))
    (he1 : e1.to_token = p.token0.symbol ∧ e1.pair_id = p.id) :
    update_pair_data g p =
      (.ok (), ExchangeGraph.mk ((g.adjacency_list.set i0
          (k0, l0 ++ refreshEdge e0 P L :: r0)).set i1
          (k1, l1 ++ refreshEdge e1 (1/P) L :: r1))
        g.tokens) := by
  have hsym : p.token0.symbol ≠ p.token1.symbol :=
    validate_ok_symbols_ne p hv
  have hk0 : k0 = p.token0.symbol := by
    have := findIdx?_pred_at (fun kv => kv.1 == p.token0.symbol)
      g.adjacency_list i0 (k0, l0 ++ e0 :: r0) hi0 hget0
    simpa using this
  have hk1 : k1 = p.token1.symbol := by
    have := findIdx?_pred_at (fun kv => kv.1 == p.token1.symbol)
      g.adjacency_list i1 (k1, l1 ++ e1 :: r1) hi1 hget1
    simpa using this
  have hne : i0 ≠ i1 := by
    intro heq
    rw [heq, hget1] at hget0
    simp only [Option.some.injEq, Prod.mk.injEq] at hget0
    have hkk : p.token1.symbol = p.token0.symbol := by
      rw [← hk1, hget0.1, hk0]
    exact hsym hkk.symm
  have hl0b : ∀ e ∈ l0,
      (e.to_token == p.token1.symbol && e.pair_id == p.id) = false := by
    intro e he
    have h := hl0 e he
    cases h1 : (e.to_token == p.token1.symbol) <;>
      cases h2 : (e.pair_id == p.id) <;> simp_all
  have he0b : (e0.to_token == p.token1.symbol && e0.pair_id == p.id)
      = true := by simp [he0.1, he0.2]
  have hl1b : ∀ e ∈ l1,
      (e.to_token == p.token0.symbol && e.pair_id == p.id) = false := by
    intro e he
    have h := hl1 e he
    cases h1 : (e.to_token == p.token0.symbol) <;>
      cases h2 : (e.pair_id == p.id) <;> simp_all
  have he1b : (e1.to_token == p.token0.symbol && e1.pair_id == p.id)
      = true := by simp [he1.1, he1.2]
  have hfwd : update_existing_edge g.adjacency_list p.token0.symbol
      p.token1.symbol p.id P L =
      (true, g.adjacency_list.set i0
        (k0, l0 ++ refreshEdge e0 P L :: r0)) :=
    update_existing_edge_eq _ _ _ _ _ _ i0 (k0, l0 ++ e0 :: r0) _ hi0 hget0
      (updateFirstWhere_spec _ _ l0 e0 r0 hl0b he0b)
  have hidx1s : (g.adjacency_list.set i0
      (k0, l0 ++ refreshEdge e0 P L :: r0)).findIdx?
      (fun kv => kv.1 == p.token1.symbol) = some i1 := by
    rw [findIdx?_set_congr (fun kv => kv.1 == p.token1.symbol)
      g.adjacency_list i0 (k0, l0 ++ refreshEdge e0 P L :: r0)
      (k0, l0 ++ e0 :: r0) hget0 rfl 0]
    exact hi1
  have hget1s : (g.adjacency_list.set i0
      (k0, l0 ++ refreshEdge e0 P L :: r0)).get? i1 =
      some (k1, l1 ++ e1 :: r1) := by
    rw [List.get?_eq_getElem?, List.getElem?_set_ne hne,
      ← List.get?_eq_getElem?]
    exact hget1
  have hrev : update_existing_edge (g.adjacency_list.set i0
      (k0, l0 ++ refreshEdge e0 P L :: r0)) p.token1.symbol
      p.token0.symbol p.id (1/P) L =
      (true, (g.adjacency_list.set i0
        (k0, l0 ++ refreshEdge e0 P L :: r0)).set i1
        (k1, l1 ++ refreshEdge e1 (1/P) L :: r1)) :=
    update_existing_edge_eq _ _ _ _ _ _ i1 (k1, l1 ++ e1 :: r1) _ hidx1s
      hget1s (updateFirstWhere_spec _ _ l1 e1 r1 hl1b he1b)
  simp only [update_pair_data, hv, hprice, if_neg hPnz, hL, hfwd, hrev]
  simp

/-- C6 witness: on the concrete graph `g6`, updating pair `p6` (price 3,
liquidity 6000000) rewrites only the two stored `pair6` edges in place:
the unrelated `other` edge keeps its leading position, no entry is added
or removed, and the token set is unchanged. -/
theorem C6_upsert_in_place_witness :
    update_pair_data g6 p6 =
      (.ok (), ExchangeGraph.mk ((g6.adjacency_list.set 0
          ("WETH", [⟨"other", "WETH", "DAI", "sushiswap", 2, 50000,
              3/1000, 1/100, 3/1000⟩] ++
            refreshEdge ⟨"pair6", "WETH", "USDC", "uniswap_v2", 2,
              5000000, 3/1000, 1/1000, 3/1000⟩ 3 6000000 :: [])).set 1
          ("USDC", [] ++
            refreshEdge ⟨"pair6", "USDC", "WETH", "uniswap_v2", 1/2,
              5000000, 3/1000, 1/1000, 3/1000⟩ (1/3) 6000000 :: []))
        g6.tokens) :=
  C6_upsert_in_place g6 p6 3 6000000 0 1 "WETH" "USDC"
    [⟨"other", "WETH", "DAI", "sushiswap", 2, 50000, 3/1000, 1/100,
      3/1000⟩] [] [] []
    ⟨"pair6", "WETH", "USDC", "uniswap_v2", 2, 5000000, 3/1000, 1/1000,
      3/1000⟩
    ⟨"pair6", "USDC", "WETH", "uniswap_v2", 1/2, 5000000, 3/1000, 1/1000,
      3/1000⟩
    (by with_unfolding_all rfl) (by with_unfolding_all rfl) (by norm_num)
    (by with_unfolding_all rfl) (by with_unfolding_all rfl)
    (by with_unfolding_all rfl) (by decide) (by decide)
    (by with_unfolding_all rfl) (by with_unfolding_all rfl)
    (fun e he => absurd he (List.not_mem_nil e)) (by decide)
